import Mathlib

/-!
Verification of the flocking-simulation core (spatial grid, neighbor query,
staggered neighbor-cache scheduler, flocking-force accumulation, integration,
boundary wrap) against its C sources.

Embedding conventions:
* C `float` scalars are embedded as exact rationals (`ℚ`); the few functions
  that take a square root (`vec3_mag` and its callers `vec3_normalize`,
  `vec3_limit`, `particle_update`) are embedded over `ℝ` with `Real.sqrt`.
* C `int` values are embedded as `ℤ` (array indices that are always
  nonnegative loop counters are embedded as `ℕ`).
* A C cast `(int)q` truncates toward zero; `cTrunc` below embeds it.
* C arrays are embedded as total functions updated with `Function.update`;
  in-place mutation becomes explicit state passing through `List.foldl`.
-/

set_option maxHeartbeats 1000000

/-- `Vector3D` from vector3d.h: three scalar components. -/
structure Vector3D (α : Type) where
  x : α
  y : α
  z : α
deriving DecidableEq

/-- `Particle` from particle.h. -/
structure Particle (α : Type) where
  position : Vector3D α
  velocity : Vector3D α
  acceleration : Vector3D α
  max_speed : α
  max_force : α
deriving DecidableEq

/-- `vec3_create` from vector3d.c. -/
def vec3_create {α : Type} (x y z : α) : Vector3D α := ⟨x, y, z⟩

/-- `vec3_add` from vector3d.c (functional result instead of in-place update). -/
def vec3_add {α : Type} [Add α] (v1 v2 : Vector3D α) : Vector3D α :=
  ⟨v1.x + v2.x, v1.y + v2.y, v1.z + v2.z⟩

/-- `vec3_sub` from vector3d.c. -/
def vec3_sub {α : Type} [Sub α] (v1 v2 : Vector3D α) : Vector3D α :=
  ⟨v1.x - v2.x, v1.y - v2.y, v1.z - v2.z⟩

/-- `vec3_mult` from vector3d.c. -/
def vec3_mult {α : Type} [Mul α] (v : Vector3D α) (n : α) : Vector3D α :=
  ⟨v.x * n, v.y * n, v.z * n⟩

/-- `vec3_div` from vector3d.c: division guarded by `n != 0.0f`. -/
def vec3_div {α : Type} [Div α] [Zero α] [DecidableEq α] (v : Vector3D α) (n : α) : Vector3D α :=
  if n ≠ 0 then ⟨v.x / n, v.y / n, v.z / n⟩ else v

/-- `vec3_sub_new` from vector3d.c. -/
def vec3_sub_new {α : Type} [Sub α] (v1 v2 : Vector3D α) : Vector3D α :=
  ⟨v1.x - v2.x, v1.y - v2.y, v1.z - v2.z⟩

/-- `vec3_mag_sq` from vector3d.c. -/
def vec3_mag_sq {α : Type} [Add α] [Mul α] (v : Vector3D α) : α :=
  v.x * v.x + v.y * v.y + v.z * v.z

/-- `vec3_dist_sq_inline` from vector3d.h. -/
def vec3_dist_sq_inline {α : Type} [Add α] [Sub α] [Mul α] (v1 v2 : Vector3D α) : α :=
  (v1.x - v2.x) * (v1.x - v2.x) + (v1.y - v2.y) * (v1.y - v2.y) +
    (v1.z - v2.z) * (v1.z - v2.z)

/-!
## Boundary wrap (particle.c, `particle_wrap`)

For one axis the source runs two sequential conditionals on the mutable
component: `if (x > extent) x = 0.0f; if (x < 0.0f) x = extent;`.
`wrapCoord` composes the two, `particle_wrap` applies it per axis.
-/

/-- First conditional of one axis of `particle_wrap`: `if (x > extent) x = 0.0f;`. -/
def wrapHigh (x extent : ℚ) : ℚ :=
  if extent < x then 0 else x

/-- Second conditional of one axis of `particle_wrap`: `if (x < 0.0f) x = extent;`. -/
def wrapLow (x extent : ℚ) : ℚ :=
  if x < 0 then extent else x

/-- One axis of `particle_wrap` from particle.c: the two sequential `if`s. -/
def wrapCoord (x extent : ℚ) : ℚ :=
  wrapLow (wrapHigh x extent) extent

/-- `particle_wrap` from particle.c. -/
def particle_wrap (p : Particle ℚ) (width height depth : ℚ) : Particle ℚ :=
  { p with
    position :=
      ⟨wrapCoord p.position.x width, wrapCoord p.position.y height,
        wrapCoord p.position.z depth⟩ }

theorem wrapCoord_mem (x extent : ℚ) (h : 0 ≤ extent) :
    0 ≤ wrapCoord x extent ∧ wrapCoord x extent ≤ extent := by
  unfold wrapCoord wrapLow wrapHigh
  split_ifs <;> constructor <;> linarith

theorem wrapCoord_at_extent (extent : ℚ) : wrapCoord extent extent = extent := by
  unfold wrapCoord wrapLow wrapHigh
  split_ifs <;> first | rfl | linarith

theorem wrapCoord_of_gt (x extent : ℚ) (h : extent < x) : wrapCoord x extent = 0 := by
  unfold wrapCoord wrapLow wrapHigh
  split_ifs <;> first | rfl | linarith

theorem wrapCoord_of_mem (x extent : ℚ) (h0 : 0 ≤ x) (h1 : x < extent) :
    wrapCoord x extent = x := by
  unfold wrapCoord wrapLow wrapHigh
  split_ifs <;> first | rfl | linarith

theorem wrapCoord_idem (x extent : ℚ) :
    wrapCoord (wrapCoord x extent) extent = wrapCoord x extent := by
  unfold wrapCoord wrapLow wrapHigh
  split_ifs <;> first | rfl | linarith

/-- Sample particle builder for concrete checks: the given position with
velocity and acceleration zero and the limits set in `particle_create`. -/
def mkP (x y z : ℚ) : Particle ℚ :=
  ⟨⟨x, y, z⟩, ⟨0, 0, 0⟩, ⟨0, 0, 0⟩, 4, 1 / 10⟩

/-- Claim C4 (counterexample): a component exactly at the extent is left at the
extent by `particle_wrap`, outside the half-open interval `[0, extent)` the
claim states. -/
theorem particle_wrap_not_halfopen :
    ¬ (particle_wrap (mkP 10 5 5) 10 10 10).position.x < 10 := by
  norm_num [particle_wrap, wrapCoord, wrapLow, wrapHigh, mkP]

/-- Claim C4 (amended): after `particle_wrap` with nonnegative extents, every
position component lies in the closed interval `[0, extent]` for its axis
(the code leaves a component equal to the extent in place and resets a negative
component to the extent itself, so the right endpoint is attained). -/
theorem particle_wrap_in_closed_interval (p : Particle ℚ) (width height depth : ℚ)
    (hw : 0 ≤ width) (hh : 0 ≤ height) (hd : 0 ≤ depth) :
    (0 ≤ (particle_wrap p width height depth).position.x ∧
      (particle_wrap p width height depth).position.x ≤ width) ∧
    (0 ≤ (particle_wrap p width height depth).position.y ∧
      (particle_wrap p width height depth).position.y ≤ height) ∧
    (0 ≤ (particle_wrap p width height depth).position.z ∧
      (particle_wrap p width height depth).position.z ≤ depth) :=
  ⟨wrapCoord_mem _ _ hw, wrapCoord_mem _ _ hh, wrapCoord_mem _ _ hd⟩

/-- Witness for the amended C4 theorem at a concrete particle. -/
theorem particle_wrap_in_closed_interval_witness :
    (0 : ℚ) ≤ 10 ∧
    (0 ≤ (particle_wrap (mkP (-3) 12 5) 10 10 10).position.x ∧
      (particle_wrap (mkP (-3) 12 5) 10 10 10).position.x ≤ 10) :=
  ⟨by norm_num,
    (particle_wrap_in_closed_interval (mkP (-3) 12 5) 10 10 10 (by norm_num)
      (by norm_num) (by norm_num)).1⟩

/-- Claim C5 (counterexample): a component at `extent + ε` (extent 10, ε = 2)
is reset to 0 by `particle_wrap`, not to ε as the claim states. -/
theorem particle_wrap_resets_to_zero :
    (particle_wrap (mkP 12 5 5) 10 10 10).position.x = 0 ∧ (0 : ℚ) ≠ 12 - 10 := by
  norm_num [particle_wrap, wrapCoord, wrapLow, wrapHigh, mkP]

/-- Claim C5 (amended): `particle_wrap` leaves a component exactly at the
extent unchanged (it does not wrap to 0); it resets a component strictly above
the extent to 0 (not to the overshoot ε); it is a no-op on a component already
inside `[0, extent)`; and applying it twice equals applying it once. -/
theorem particle_wrap_boundary_behavior (p : Particle ℚ) (width height depth : ℚ) :
    (p.position.x = width → (particle_wrap p width height depth).position.x = width) ∧
    (width < p.position.x → (particle_wrap p width height depth).position.x = 0) ∧
    (0 ≤ p.position.x → p.position.x < width →
      (particle_wrap p width height depth).position.x = p.position.x) ∧
    particle_wrap (particle_wrap p width height depth) width height depth =
      particle_wrap p width height depth := by
  refine ⟨fun h => ?_, fun h => ?_, fun h0 h1 => ?_, ?_⟩
  · show wrapCoord p.position.x width = width
    rw [h, wrapCoord_at_extent]
  · exact wrapCoord_of_gt _ _ h
  · exact wrapCoord_of_mem _ _ h0 h1
  · simp only [particle_wrap]
    rw [wrapCoord_idem, wrapCoord_idem, wrapCoord_idem]

/-!
## Flocking-force accumulation loop (particle.c, `particle_flock_optimized`)

The per-neighbor loop of `particle_flock_optimized` (lines 140-159): skip
self, then accumulate separation / alignment / cohesion sums and counts only
when `dist_sq < perception_radius_sq && dist_sq > 0.001f`.
-/

/-- The literal `0.001f` guarding the separation division in
`particle_flock_optimized`, embedded exactly as the rational 1/1000. -/
def MIN_DIST_SQ : ℚ := 1 / 1000

/-- Accumulator state of the neighbor loop of `particle_flock_optimized`:
the three partial force sums and their counts. -/
structure FlockAccum where
  separation : Vector3D ℚ
  alignment : Vector3D ℚ
  cohesion : Vector3D ℚ
  sep_count : ℤ
  align_count : ℤ
  coh_count : ℤ
deriving DecidableEq

/-- Zero-initialised accumulator (lines 133-136 of particle.c). -/
def flockAccumInit : FlockAccum :=
  ⟨vec3_create 0 0 0, vec3_create 0 0 0, vec3_create 0 0 0, 0, 0, 0⟩

/-- One iteration of the neighbor loop of `particle_flock_optimized`. -/
def flockStep (p : Particle ℚ) (particle_idx : ℕ) (particles : ℕ → Particle ℚ)
    (perception_radius : ℚ) (acc : FlockAccum) (neighbor_idx : ℕ) : FlockAccum :=
  if neighbor_idx = particle_idx then acc
  else if vec3_dist_sq_inline p.position (particles neighbor_idx).position <
        perception_radius * perception_radius ∧
      MIN_DIST_SQ < vec3_dist_sq_inline p.position (particles neighbor_idx).position then
    { separation := vec3_add acc.separation
        (vec3_div (vec3_sub_new p.position (particles neighbor_idx).position)
          (vec3_dist_sq_inline p.position (particles neighbor_idx).position)),
      alignment := vec3_add acc.alignment (particles neighbor_idx).velocity,
      cohesion := vec3_add acc.cohesion (particles neighbor_idx).position,
      sep_count := acc.sep_count + 1,
      align_count := acc.align_count + 1,
      coh_count := acc.coh_count + 1 }
  else acc

/-- The whole neighbor loop of `particle_flock_optimized` over a cached
neighbor-index list. -/
def flockAccum (p : Particle ℚ) (particle_idx : ℕ) (particles : ℕ → Particle ℚ)
    (perception_radius : ℚ) (neighbors : List ℕ) : FlockAccum :=
  neighbors.foldl (flockStep p particle_idx particles perception_radius) flockAccumInit

/-- The acceptance condition of the neighbor loop, as a boolean predicate:
not self, strictly inside the perception radius, and squared distance
strictly above the `0.001f` threshold. -/
def flockGuard (p : Particle ℚ) (particle_idx : ℕ) (particles : ℕ → Particle ℚ)
    (perception_radius : ℚ) (neighbor_idx : ℕ) : Bool :=
  decide (neighbor_idx ≠ particle_idx) &&
    decide (vec3_dist_sq_inline p.position (particles neighbor_idx).position <
      perception_radius * perception_radius) &&
    decide (MIN_DIST_SQ < vec3_dist_sq_inline p.position (particles neighbor_idx).position)

theorem flockStep_of_guard_false (p : Particle ℚ) (particle_idx : ℕ)
    (particles : ℕ → Particle ℚ) (perception_radius : ℚ) (acc : FlockAccum) (j : ℕ)
    (hg : flockGuard p particle_idx particles perception_radius j = false) :
    flockStep p particle_idx particles perception_radius acc j = acc := by
  unfold flockStep
  split_ifs with h1 h2
  · rfl
  · exfalso
    have hg1 : flockGuard p particle_idx particles perception_radius j = true := by
      simp only [flockGuard, Bool.and_eq_true, decide_eq_true_eq]
      exact ⟨⟨h1, h2.1⟩, h2.2⟩
    rw [hg] at hg1
    exact Bool.false_ne_true hg1
  · rfl

theorem flockAccum_foldl_filter (p : Particle ℚ) (particle_idx : ℕ)
    (particles : ℕ → Particle ℚ) (perception_radius : ℚ) :
    ∀ (l : List ℕ) (acc : FlockAccum),
      l.foldl (flockStep p particle_idx particles perception_radius) acc =
        (l.filter (flockGuard p particle_idx particles perception_radius)).foldl
          (flockStep p particle_idx particles perception_radius) acc := by
  intro l
  induction l with
  | nil => intro acc; rfl
  | cons a l ih =>
    intro acc
    by_cases hg : flockGuard p particle_idx particles perception_radius a = true
    · rw [List.filter_cons_of_pos hg, List.foldl_cons, List.foldl_cons, ih]
    · have hg0 : flockGuard p particle_idx particles perception_radius a = false :=
        Bool.eq_false_iff.mpr hg
      rw [List.filter_cons_of_neg (by simp [hg0]), List.foldl_cons,
        flockStep_of_guard_false _ _ _ _ _ _ hg0, ih]

/-- Claim C9: the neighbor loop of `particle_flock_optimized` contributes a
neighbor to the separation, alignment and cohesion sums only when its squared
distance is strictly above the `0.001f` threshold (and strictly inside the
perception radius, and not the agent itself); every pair at or below the
threshold is excluded from all three accumulations entirely, so the division
of the separation term by the squared distance is only ever performed with a
divisor strictly greater than `0.001`, never zero or near-zero. -/
theorem flock_excludes_degenerate_pairs (p : Particle ℚ) (particle_idx : ℕ)
    (particles : ℕ → Particle ℚ) (perception_radius : ℚ) (neighbors : List ℕ) :
    flockAccum p particle_idx particles perception_radius neighbors =
      flockAccum p particle_idx particles perception_radius
        (neighbors.filter (flockGuard p particle_idx particles perception_radius)) ∧
    ∀ j ∈ neighbors.filter (flockGuard p particle_idx particles perception_radius),
      MIN_DIST_SQ < vec3_dist_sq_inline p.position (particles j).position := by
  constructor
  · unfold flockAccum
    rw [flockAccum_foldl_filter]
  · intro j hj
    have := (List.mem_filter.mp hj).2
    simp only [flockGuard, Bool.and_eq_true, decide_eq_true_eq] at this
    exact this.2

/-!
## Staggered neighbor-cache scheduler (main.c, `update_simulation`, lines 184-202)

With `STAGGER_CACHE_UPDATES` enabled the source computes
`stagger_group = i % CACHE_NEIGHBORS_FRAMES`,
`should_update = (current_frame % CACHE_NEIGHBORS_FRAMES) == stagger_group`,
`needs_init = (current_frame < CACHE_NEIGHBORS_FRAMES && neighbor_cache[i].count == 0)`
and refreshes agent `i`'s cache when `should_update || needs_init`.
`CACHE_NEIGHBORS_FRAMES` (the spec's `cache_period`) is kept as a parameter.
-/

/-- The refresh decision of the scheduler for agent `i` on frame
`current_frame`, given the agent's cached neighbor count. -/
def shouldRefresh (cache_period current_frame i cached_count : ℕ) : Bool :=
  (current_frame % cache_period == i % cache_period) ||
    (decide (current_frame < cache_period) && (cached_count == 0))

/-- Claim C7: past the cold-start window (frames ≥ `cache_period`), the
scheduler refreshes agent `i` exactly on the frames congruent to `i` modulo
`cache_period`, hence exactly once in any window of `cache_period` consecutive
frames starting at or after `cache_period`. -/
theorem stagger_refresh_exactly_once (cache_period i f0 : ℕ) (cached_count : ℕ → ℕ)
    (hcp : 0 < cache_period) (hf0 : cache_period ≤ f0) :
    (∀ f ∈ Finset.Ico f0 (f0 + cache_period),
      (shouldRefresh cache_period f i (cached_count f) = true ↔
        f % cache_period = i % cache_period)) ∧
    ((Finset.Ico f0 (f0 + cache_period)).filter
      (fun f => shouldRefresh cache_period f i (cached_count f) = true)).card = 1 := by
  have hmem_iff : ∀ f, f0 ≤ f →
      (shouldRefresh cache_period f i (cached_count f) = true ↔
        f % cache_period = i % cache_period) := by
    intro f hf
    have hnotlt : ¬ f < cache_period := by omega
    simp [shouldRefresh, hnotlt]
  constructor
  · intro f hf
    exact hmem_iff f (Finset.mem_Ico.mp hf).1
  · rw [Finset.card_eq_one]
    refine ⟨f0 + (i % cache_period + cache_period - f0 % cache_period) % cache_period, ?_⟩
    have hd : (i % cache_period + cache_period - f0 % cache_period) % cache_period <
        cache_period := Nat.mod_lt _ hcp
    have hf0m : f0 % cache_period < cache_period := Nat.mod_lt _ hcp
    have him : i % cache_period < cache_period := Nat.mod_lt _ hcp
    have hmodstar : (f0 + (i % cache_period + cache_period - f0 % cache_period) %
        cache_period) % cache_period = i % cache_period := by
      have h1 : (f0 + (i % cache_period + cache_period - f0 % cache_period) % cache_period) %
          cache_period =
          (f0 % cache_period + (i % cache_period + cache_period - f0 % cache_period)) %
            cache_period :=
        Nat.ModEq.add (Nat.mod_modEq f0 cache_period).symm
          (Nat.mod_modEq (i % cache_period + cache_period - f0 % cache_period) cache_period)
      have h2 : f0 % cache_period + (i % cache_period + cache_period - f0 % cache_period) =
          i % cache_period + cache_period := by omega
      rw [h1, h2, Nat.add_mod_right, Nat.mod_eq_of_lt him]
    have huniq : ∀ g1 g2, f0 ≤ g1 → g1 < f0 + cache_period → f0 ≤ g2 →
        g2 < f0 + cache_period → g1 % cache_period = g2 % cache_period → g1 = g2 := by
      intro g1 g2 hg1l hg1u hg2l hg2u h5
      rcases le_total g1 g2 with hle | hle
      · have hdvd : cache_period ∣ g2 - g1 := (Nat.modEq_iff_dvd' hle).mp h5
        have hz : g2 - g1 = 0 := Nat.eq_zero_of_dvd_of_lt hdvd (by omega)
        omega
      · have hdvd : cache_period ∣ g1 - g2 := (Nat.modEq_iff_dvd' hle).mp h5.symm
        have hz : g1 - g2 = 0 := Nat.eq_zero_of_dvd_of_lt hdvd (by omega)
        omega
    ext g
    simp only [Finset.mem_filter, Finset.mem_Ico, Finset.mem_singleton]
    constructor
    · rintro ⟨⟨hgl, hgu⟩, hg⟩
      have hgm := (hmem_iff g hgl).mp hg
      exact huniq g _ hgl hgu (Nat.le_add_right _ _) (by omega)
        (hgm.trans hmodstar.symm)
    · rintro rfl
      exact ⟨⟨Nat.le_add_right _ _, by omega⟩,
        (hmem_iff _ (Nat.le_add_right _ _)).mpr hmodstar⟩

/-- Witness for the C7 theorem: with `cache_period = 2`, agent 7, window
`[4, 6)`, the scheduler refreshes exactly once. -/
theorem stagger_refresh_exactly_once_witness :
    ((Finset.Ico 4 (4 + 2)).filter
      (fun f => shouldRefresh 2 f 7 ((fun _ => 5) f) = true)).card = 1 :=
  (stagger_refresh_exactly_once 2 7 4 (fun _ => 5) (by norm_num) (by norm_num)).2

/-!
## Frame-time budget early exit (main.c, `update_simulation`, lines 172-212)

The per-frame agent loop `for (i = 0; i < NUM_PARTICLES; i++)` checks, at the
top of each iteration, `if (elapsed > MAX_FRAME_TIME_MS && particles_updated >
NUM_PARTICLES / 2) break;` and otherwise performs the whole per-agent update
(cache refresh decision, flocking, integration, wrap), incrementing
`particles_updated`. At the top of iteration `i` exactly `i` agents have been
updated, so `particles_updated` is `i` there. The per-agent body is abstracted
as a state transformer `step i`; wall-clock time is an oracle `elapsed`
giving the value sampled at the top of iteration `i`. -/

/-- The loop of `update_simulation` with the budget check, by remaining fuel:
`updateLoopAux step elapsed budget n fuel i s` runs iterations `i, i+1, ...`
while fuel lasts, returning the final state and the number of agents updated. -/
def updateLoopAux {A : Type} (step : ℕ → (ℕ → A) → (ℕ → A)) (elapsed : ℕ → ℚ)
    (budget : ℚ) (n : ℕ) : ℕ → ℕ → (ℕ → A) → ((ℕ → A) × ℕ)
  | 0, i, s => (s, i)
  | fuel + 1, i, s =>
    if budget < elapsed i ∧ n / 2 < i then (s, i)
    else updateLoopAux step elapsed budget n fuel (i + 1) (step i s)

/-- The whole per-frame agent loop of `update_simulation` over `n` agents. -/
def update_simulation_loop {A : Type} (step : ℕ → (ℕ → A) → (ℕ → A)) (elapsed : ℕ → ℚ)
    (budget : ℚ) (n : ℕ) (s : ℕ → A) : (ℕ → A) × ℕ :=
  updateLoopAux step elapsed budget n n 0 s

theorem updateLoopAux_spec {A : Type} (step : ℕ → (ℕ → A) → (ℕ → A)) (elapsed : ℕ → ℚ)
    (budget : ℚ) (n : ℕ) :
    ∀ (fuel i : ℕ) (s : ℕ → A), i + fuel = n →
      i ≤ (updateLoopAux step elapsed budget n fuel i s).2 ∧
      (updateLoopAux step elapsed budget n fuel i s).2 ≤ n ∧
      ((updateLoopAux step elapsed budget n fuel i s).2 < n →
        budget < elapsed (updateLoopAux step elapsed budget n fuel i s).2 ∧
          n / 2 < (updateLoopAux step elapsed budget n fuel i s).2) ∧
      (∀ k, i ≤ k → k < (updateLoopAux step elapsed budget n fuel i s).2 →
        ¬(budget < elapsed k ∧ n / 2 < k)) ∧
      (updateLoopAux step elapsed budget n fuel i s).1 =
        (List.range' i ((updateLoopAux step elapsed budget n fuel i s).2 - i)).foldl
          (fun t j => step j t) s := by
  intro fuel
  induction fuel with
  | zero =>
    intro i s hi
    simp only [updateLoopAux]
    refine ⟨le_refl i, by omega, fun h => absurd h (by omega), fun k hk1 hk2 => by omega, ?_⟩
    simp
  | succ m ih =>
    intro i s hi
    simp only [updateLoopAux]
    split_ifs with hstop
    · refine ⟨le_refl i, by omega, fun _ => hstop, fun k hk1 hk2 => by omega, ?_⟩
      simp
    · obtain ⟨ha, hb, hc, hd, he⟩ := ih (i + 1) (step i s) (by omega)
      refine ⟨by omega, hb, hc, ?_, ?_⟩
      · intro k hk1 hk2
        rcases Nat.eq_or_lt_of_le hk1 with rfl | hk1
        · exact hstop
        · exact hd k hk1 hk2
      · rw [he]
        have hlen : (updateLoopAux step elapsed budget n m (i + 1) (step i s)).2 - i =
            ((updateLoopAux step elapsed budget n m (i + 1) (step i s)).2 - (i + 1)) + 1 := by
          omega
        rw [hlen, List.range'_succ, List.foldl_cons]

/-- Claim C8: during the per-frame agent loop, agents are processed in order
until either all `n` are done or the first iteration at which elapsed time
exceeds the budget AND strictly more than half the agents (integer division
`n / 2`) have been processed; from that point every remaining agent is skipped
entirely (the state of every agent with index at or past the cutoff is exactly
its pre-frame state, given that updating one agent writes only that agent);
and no iteration before the cutoff satisfied the exit condition, so with at
most half the agents processed nothing is skipped regardless of elapsed time. -/
theorem frame_budget_skip {A : Type} (step : ℕ → (ℕ → A) → (ℕ → A)) (elapsed : ℕ → ℚ)
    (budget : ℚ) (n : ℕ) (s : ℕ → A)
    (hstep : ∀ i t j, j ≠ i → step i t j = t j) :
    (update_simulation_loop step elapsed budget n s).2 ≤ n ∧
    ((update_simulation_loop step elapsed budget n s).2 < n →
      budget < elapsed (update_simulation_loop step elapsed budget n s).2 ∧
        n / 2 < (update_simulation_loop step elapsed budget n s).2) ∧
    (∀ k < (update_simulation_loop step elapsed budget n s).2,
      ¬(budget < elapsed k ∧ n / 2 < k)) ∧
    (update_simulation_loop step elapsed budget n s).1 =
      (List.range (update_simulation_loop step elapsed budget n s).2).foldl
        (fun t j => step j t) s ∧
    (∀ j, (update_simulation_loop step elapsed budget n s).2 ≤ j →
      (update_simulation_loop step elapsed budget n s).1 j = s j) := by
  obtain ⟨ha, hb, hc, hd, he⟩ :=
    updateLoopAux_spec step elapsed budget n n 0 s (by omega)
  have hrange : (update_simulation_loop step elapsed budget n s).1 =
      (List.range (update_simulation_loop step elapsed budget n s).2).foldl
        (fun t j => step j t) s := by
    unfold update_simulation_loop
    rw [he, List.range_eq_range']
    simp
  have huntouched : ∀ (l : List ℕ) (t : ℕ → A) (j : ℕ), (∀ i ∈ l, j ≠ i) →
      (l.foldl (fun t k => step k t) t) j = t j := by
    intro l
    induction l with
    | nil => intro t j _; rfl
    | cons a l ihl =>
      intro t j hj
      rw [List.foldl_cons, ihl _ _ (fun i hi => hj i (List.mem_cons_of_mem a hi)),
        hstep a t j (hj a (List.mem_cons_self a l))]
  refine ⟨hb, hc, fun k hk => hd k (Nat.zero_le k) hk, hrange, ?_⟩
  intro j hj
  rw [hrange]
  exact huntouched _ s j (fun i hi => by
    have := List.mem_range.mp hi
    omega)

/-- Concrete per-agent update used by the C8 witness: bump agent `i`. -/
def stepW : ℕ → (ℕ → ℕ) → (ℕ → ℕ) :=
  fun i t => Function.update t i (t i + 1)

/-- Witness for the C8 theorem at a concrete loop instance. -/
theorem frame_budget_skip_witness :
    (update_simulation_loop stepW (fun i => (i : ℚ)) 2 10 (fun _ => 0)).2 ≤ 10 :=
  (frame_budget_skip stepW (fun i => (i : ℚ)) 2 10 (fun _ => 0)
    (fun _ _ _ hj => Function.update_noteq hj _ _)).1

/-!
## Magnitude, normalize, limit and integration (vector3d.c / particle.c)

These take a square root, so they are embedded over `ℝ` with `Real.sqrt`.
-/

/-- `vec3_mag` from vector3d.c. -/
noncomputable def vec3_mag (v : Vector3D ℝ) : ℝ :=
  Real.sqrt (v.x * v.x + v.y * v.y + v.z * v.z)

/-- `vec3_normalize` from vector3d.c: divide by the magnitude when it is
positive. -/
noncomputable def vec3_normalize (v : Vector3D ℝ) : Vector3D ℝ :=
  if 0 < vec3_mag v then vec3_div v (vec3_mag v) else v

/-- `vec3_limit` from vector3d.c: rescale to magnitude `max` when the
magnitude exceeds `max`. -/
noncomputable def vec3_limit (v : Vector3D ℝ) (max : ℝ) : Vector3D ℝ :=
  if max < vec3_mag v then vec3_mult (vec3_normalize v) max else v

/-- `vec3_set_mag` from vector3d.c. -/
noncomputable def vec3_set_mag (v : Vector3D ℝ) (mag : ℝ) : Vector3D ℝ :=
  vec3_mult (vec3_normalize v) mag

/-- `particle_update` from particle.c: velocity += acceleration, clamp the
velocity to `max_speed`, position += velocity, acceleration *= 0. -/
noncomputable def particle_update (p : Particle ℝ) : Particle ℝ :=
  { p with
    velocity := vec3_limit (vec3_add p.velocity p.acceleration) p.max_speed,
    position := vec3_add p.position (vec3_limit (vec3_add p.velocity p.acceleration) p.max_speed),
    acceleration := vec3_mult p.acceleration 0 }

theorem vec3_mag_nonneg (v : Vector3D ℝ) : 0 ≤ vec3_mag v :=
  Real.sqrt_nonneg _

theorem vec3_mag_mult (v : Vector3D ℝ) (c : ℝ) :
    vec3_mag (vec3_mult v c) = |c| * vec3_mag v := by
  unfold vec3_mag vec3_mult
  have h : v.x * c * (v.x * c) + v.y * c * (v.y * c) + v.z * c * (v.z * c) =
      c ^ 2 * (v.x * v.x + v.y * v.y + v.z * v.z) := by ring
  rw [h, Real.sqrt_mul (sq_nonneg c), Real.sqrt_sq_eq_abs]

theorem vec3_mag_div (v : Vector3D ℝ) (n : ℝ) (hn : n ≠ 0) :
    vec3_mag (vec3_div v n) = |n|⁻¹ * vec3_mag v := by
  have hrw : vec3_div v n = vec3_mult v n⁻¹ := by
    unfold vec3_div vec3_mult
    rw [if_pos hn]
    simp [div_eq_mul_inv]
  rw [hrw, vec3_mag_mult, abs_inv]

theorem vec3_mag_limit_le (v : Vector3D ℝ) (m : ℝ) (hm : 0 ≤ m) :
    vec3_mag (vec3_limit v m) ≤ m := by
  unfold vec3_limit
  split_ifs with hlt
  · have hpos : 0 < vec3_mag v := lt_of_le_of_lt hm hlt
    unfold vec3_normalize
    rw [if_pos hpos, vec3_mag_mult, vec3_mag_div _ _ (ne_of_gt hpos),
      abs_of_pos hpos, inv_mul_cancel₀ (ne_of_gt hpos), mul_one, abs_of_nonneg hm]
  · exact le_of_not_lt hlt

/-- Claim C3: after `particle_update` (velocity += acceleration, clamp by
`vec3_limit`, position += velocity, acceleration reset), the magnitude of the
particle's velocity is at most its (nonnegative) `max_speed`, for any
accumulated acceleration however large. -/
theorem particle_update_velocity_bounded (p : Particle ℝ) (h : 0 ≤ p.max_speed) :
    vec3_mag (particle_update p).velocity ≤ p.max_speed := by
  show vec3_mag (vec3_limit (vec3_add p.velocity p.acceleration) p.max_speed) ≤ p.max_speed
  exact vec3_mag_limit_le _ _ h

/-- Concrete particle for the C3 witness: speed-5 velocity, huge acceleration,
`max_speed` 4 as set by `particle_create`. -/
noncomputable def pC3 : Particle ℝ :=
  ⟨⟨0, 0, 0⟩, ⟨3, 4, 0⟩, ⟨1000000, -2000000, 3000000⟩, 4, 1 / 10⟩

/-- Witness for the C3 theorem at a concrete particle. -/
theorem particle_update_velocity_bounded_witness :
    (0 : ℝ) ≤ pC3.max_speed ∧ vec3_mag (particle_update pC3).velocity ≤ pC3.max_speed :=
  ⟨by norm_num [pC3], particle_update_velocity_bounded pC3 (by norm_num [pC3])⟩

/-!
## Spatial grid (spatial_grid.h / spatial_grid.c)

`SpatialGrid` holds three flat `int` arrays (`particle_indices`,
`cell_starts`, `cell_counts`) and the grid dimensions. Arrays are embedded as
total functions from the `int` index; `particle_indices` stores loop counters
(agent indices), embedded as `ℕ`.
-/

/-- `MAX_NEIGHBORS` from spatial_grid.h line 7. -/
def MAX_NEIGHBORS : ℕ := 10

/-- `SpatialGrid` from spatial_grid.h. -/
structure SpatialGrid where
  particle_indices : ℤ → ℕ
  cell_starts : ℤ → ℤ
  cell_counts : ℤ → ℤ
  grid_width : ℤ
  grid_height : ℤ
  grid_depth : ℤ
  cell_size : ℚ
  total_cells : ℤ
  num_particles : ℤ

/-- C truncation toward zero of a rational, as in the cast `(int)(pos / cell_size)`
in `get_grid_coords` (floor for nonnegative arguments, negated floor of the
negation otherwise, which is the ceiling). -/
def cTrunc (q : ℚ) : ℤ :=
  if 0 ≤ q then ⌊q⌋ else -⌊-q⌋

/-- `get_cell_index` from spatial_grid.c: `-1` for out-of-bounds cell
coordinates, else the flattened index. -/
def get_cell_index (grid : SpatialGrid) (x y z : ℤ) : ℤ :=
  if x < 0 ∨ grid.grid_width ≤ x ∨ y < 0 ∨ grid.grid_height ≤ y ∨
      z < 0 ∨ grid.grid_depth ≤ z then -1
  else x + y * grid.grid_width + z * grid.grid_width * grid.grid_height

/-- `get_grid_coords` from spatial_grid.c. -/
def get_grid_coords (grid : SpatialGrid) (pos : Vector3D ℚ) : ℤ × ℤ × ℤ :=
  (cTrunc (pos.x / grid.cell_size), cTrunc (pos.y / grid.cell_size),
    cTrunc (pos.z / grid.cell_size))

/-- The cell index a position maps to: `get_grid_coords` then `get_cell_index`,
exactly the pair of calls made per particle in `spatial_grid_update` and for
the query point in `spatial_grid_query_neighbors`. -/
def cellOf (grid : SpatialGrid) (pos : Vector3D ℚ) : ℤ :=
  get_cell_index grid (get_grid_coords grid pos).1 (get_grid_coords grid pos).2.1
    (get_grid_coords grid pos).2.2

/-- Pass 1 of `spatial_grid_update` (lines 89-97): tally occupancy per cell,
starting from the `memset`-zeroed counts array. -/
def countPass (grid : SpatialGrid) (particles : ℕ → Particle ℚ) (count : ℕ) : ℤ → ℤ :=
  (List.range count).foldl
    (fun counts i =>
      if 0 ≤ cellOf grid (particles i).position then
        Function.update counts (cellOf grid (particles i).position)
          (counts (cellOf grid (particles i).position) + 1)
      else counts)
    (fun _ => 0)

/-- The fold of pass 2 of `spatial_grid_update` over the first `K` cells:
prefix-sum the offsets of occupied cells into the `memset -1`-initialised
starts array, carrying the running offset. -/
def prefixGo (counts : ℤ → ℤ) (K : ℕ) : (ℤ → ℤ) × ℤ :=
  (List.range K).foldl
    (fun acc (c : ℕ) =>
      if 0 < counts (c : ℤ) then
        (Function.update acc.1 (c : ℤ) acc.2, acc.2 + counts (c : ℤ))
      else acc)
    (fun _ => -1, 0)

/-- Pass 2 of `spatial_grid_update` (lines 99-105): the loop
`for (i = 0; i < total_cells; i++)`. -/
def prefixPass (counts : ℤ → ℤ) (total : ℤ) : (ℤ → ℤ) × ℤ :=
  prefixGo counts total.toNat

/-- Pass 3 of `spatial_grid_update` (lines 107-119): scatter each in-bounds
agent index into its cell's run, counting again from zero. -/
def scatterPass (grid : SpatialGrid) (particles : ℕ → Particle ℚ) (count : ℕ)
    (starts : ℤ → ℤ) : (ℤ → ℕ) × (ℤ → ℤ) :=
  (List.range count).foldl
    (fun acc i =>
      if 0 ≤ cellOf grid (particles i).position then
        (Function.update acc.1
          (starts (cellOf grid (particles i).position) +
            acc.2 (cellOf grid (particles i).position)) i,
         Function.update acc.2 (cellOf grid (particles i).position)
          (acc.2 (cellOf grid (particles i).position) + 1))
      else acc)
    (grid.particle_indices, fun _ => 0)

/-- `spatial_grid_update` from spatial_grid.c: the three passes over a
snapshot of the particle positions. -/
def spatial_grid_update (grid : SpatialGrid) (particles : ℕ → Particle ℚ)
    (count : ℕ) : SpatialGrid :=
  { grid with
    cell_starts := (prefixPass (countPass grid particles count) grid.total_cells).1,
    cell_counts := (scatterPass grid particles count
      (prefixPass (countPass grid particles count) grid.total_cells).1).2,
    particle_indices := (scatterPass grid particles count
      (prefixPass (countPass grid particles count) grid.total_cells).1).1 }

/-- The run of agent indices stored for one cell:
`indices[cell_start .. cell_start + cell_count)`, empty when the start is the
`-1` sentinel (the `if (start < 0) continue;` in the query). -/
def cellRun (grid : SpatialGrid) (c : ℤ) : List ℕ :=
  if grid.cell_starts c < 0 then []
  else (List.range (grid.cell_counts c).toNat).map
    (fun (j : ℕ) => grid.particle_indices (grid.cell_starts c + (j : ℤ)))

/-- The cell offsets scanned by `spatial_grid_query_neighbors`, in loop order:
`dz` outermost, then `dy`, then `dx`, each from `-1` to `1`
(`cell_radius = 1`). Triples are `(dx, dy, dz)`. -/
def neighborOffsets : List (ℤ × ℤ × ℤ) :=
  (([-1, 0, 1] : List ℤ).map (fun dz =>
    (([-1, 0, 1] : List ℤ).map (fun dy =>
      (([-1, 0, 1] : List ℤ).map (fun dx => (dx, dy, dz))))).flatten)).flatten

/-- The candidates contributed by one scanned cell offset: nothing when
`get_cell_index` returns `-1` (the `if (cell_idx < 0) continue;`), else the
cell's stored run. -/
def scanCell (grid : SpatialGrid) (cx cy cz : ℤ) (d : ℤ × ℤ × ℤ) : List ℕ :=
  if get_cell_index grid (cx + d.1) (cy + d.2.1) (cz + d.2.2) < 0 then []
  else cellRun grid (get_cell_index grid (cx + d.1) (cy + d.2.1) (cz + d.2.2))

/-- The body of the candidate loop of `spatial_grid_query_neighbors`: append
the candidate when the buffer is not full and its squared distance to the
query point is strictly below `radius * radius`. Checking the capacity per
candidate is output-equivalent to the source's additional
`neighbor_count < MAX_NEIGHBORS` clauses on the three surrounding loop
conditions, because the buffer only ever grows. -/
def queryStep (particles : ℕ → Particle ℚ) (position : Vector3D ℚ) (radius_sq : ℚ)
    (buf : List ℕ) (particle_idx : ℕ) : List ℕ :=
  if buf.length < MAX_NEIGHBORS ∧
      vec3_dist_sq_inline position (particles particle_idx).position < radius_sq then
    buf ++ [particle_idx]
  else buf

/-- `spatial_grid_query_neighbors` from spatial_grid.c: scan the 3x3x3 block
of cells around the query point's cell, in loop order, collecting at most
`MAX_NEIGHBORS` agent indices that pass the strict squared-distance test. The
returned list is the contents of the output buffer. -/
def spatial_grid_query_neighbors (grid : SpatialGrid) (particles : ℕ → Particle ℚ)
    (position : Vector3D ℚ) (radius : ℚ) : List ℕ :=
  neighborOffsets.foldl
    (fun buf d =>
      (scanCell grid (get_grid_coords grid position).1 (get_grid_coords grid position).2.1
        (get_grid_coords grid position).2.2 d).foldl
        (queryStep particles position (radius * radius)) buf)
    []

/-!
## Truncation and cell-index arithmetic
-/

theorem cTrunc_eq_ceil (q : ℚ) (h : ¬ 0 ≤ q) : cTrunc q = ⌈q⌉ := by
  unfold cTrunc
  rw [if_neg h, ← Int.ceil_neg, neg_neg]

theorem floor_le_cTrunc (q : ℚ) : ⌊q⌋ ≤ cTrunc q := by
  by_cases h : 0 ≤ q
  · unfold cTrunc
    rw [if_pos h]
  · rw [cTrunc_eq_ceil q h]
    exact Int.floor_le_ceil q

theorem cTrunc_nonneg_iff (q : ℚ) : 0 ≤ cTrunc q ↔ -1 < q := by
  by_cases h : 0 ≤ q
  · unfold cTrunc
    rw [if_pos h]
    constructor
    · intro _
      linarith
    · intro _
      exact Int.le_floor.mpr (by exact_mod_cast h)
  · rw [cTrunc_eq_ceil q h]
    push_neg at h
    rw [show (0 : ℤ) = -1 + 1 by ring, Int.add_one_le_iff, Int.lt_ceil]
    push_cast
    constructor <;> intro <;> linarith

theorem cTrunc_lt_iff (q : ℚ) (d : ℤ) (hd : 1 ≤ d) : cTrunc q < d ↔ q < (d : ℚ) := by
  by_cases h : 0 ≤ q
  · unfold cTrunc
    rw [if_pos h, Int.floor_lt]
  · rw [cTrunc_eq_ceil q h]
    push_neg at h
    have h1 : ⌈q⌉ ≤ 0 := Int.ceil_le.mpr (by exact_mod_cast le_of_lt h)
    have h2 : q < (d : ℚ) := by
      have hd1 : (1 : ℚ) ≤ (d : ℚ) := by exact_mod_cast hd
      linarith
    constructor
    · intro _
      exact h2
    · intro _
      omega

theorem cTrunc_monotone (u v : ℚ) (h : u ≤ v) : cTrunc u ≤ cTrunc v := by
  by_cases hu : 0 ≤ u
  · unfold cTrunc
    rw [if_pos hu, if_pos (le_trans hu h)]
    exact Int.floor_le_floor h
  · by_cases hv : 0 ≤ v
    · have h1 : cTrunc u ≤ 0 := by
        rw [cTrunc_eq_ceil u hu]
        exact Int.ceil_le.mpr (by push_neg at hu; exact_mod_cast le_of_lt hu)
      have h2 : 0 ≤ cTrunc v := by
        unfold cTrunc
        rw [if_pos hv]
        exact Int.le_floor.mpr (by exact_mod_cast hv)
      omega
    · rw [cTrunc_eq_ceil u hu, cTrunc_eq_ceil v hv]
      exact Int.ceil_le_ceil h

theorem cTrunc_le_add_one (u v : ℚ) (h : u < v + 1) : cTrunc u ≤ cTrunc v + 1 := by
  by_cases hu : 0 ≤ u
  · have h1 : cTrunc u = ⌊u⌋ := by unfold cTrunc; rw [if_pos hu]
    have h2 : ⌊u⌋ ≤ ⌊v + 1⌋ := Int.floor_le_floor (le_of_lt h)
    have h3 : ⌊v + 1⌋ = ⌊v⌋ + 1 := by
      rw [show v + 1 = v + (1 : ℤ) by push_cast; ring, Int.floor_add_int]
    have h4 : ⌊v⌋ ≤ cTrunc v := floor_le_cTrunc v
    omega
  · have h1 : cTrunc u ≤ 0 := by
      rw [cTrunc_eq_ceil u hu]
      exact Int.ceil_le.mpr (by push_neg at hu; exact_mod_cast le_of_lt hu)
    by_cases hv : 0 ≤ v
    · have h2 : 0 ≤ cTrunc v := by
        unfold cTrunc
        rw [if_pos hv]
        exact Int.le_floor.mpr (by exact_mod_cast hv)
      omega
    · rw [cTrunc_eq_ceil u hu, cTrunc_eq_ceil v hv]
      have h2 : ⌈u⌉ ≤ ⌈v + 1⌉ := Int.ceil_le_ceil (le_of_lt h)
      have h3 : ⌈v + 1⌉ = ⌈v⌉ + 1 := by
        rw [show v + 1 = v + (1 : ℤ) by push_cast; ring, Int.ceil_add_int]
      omega

theorem get_cell_index_valid (grid : SpatialGrid) (x y z : ℤ)
    (h : 0 ≤ get_cell_index grid x y z) :
    0 ≤ x ∧ x < grid.grid_width ∧ 0 ≤ y ∧ y < grid.grid_height ∧
      0 ≤ z ∧ z < grid.grid_depth ∧
      get_cell_index grid x y z = x + y * grid.grid_width +
        z * grid.grid_width * grid.grid_height := by
  unfold get_cell_index at h ⊢
  split_ifs at h ⊢ with hg
  · omega
  · push_neg at hg
    refine ⟨by omega, by omega, by omega, by omega, by omega, by omega, rfl⟩

theorem get_cell_index_lt_total (grid : SpatialGrid) (x y z : ℤ)
    (h : 0 ≤ get_cell_index grid x y z) :
    get_cell_index grid x y z <
      grid.grid_width * grid.grid_height * grid.grid_depth := by
  obtain ⟨hx0, hxw, hy0, hyh, hz0, hzd, heq⟩ := get_cell_index_valid grid x y z h
  rw [heq]
  have hw0 : (0 : ℤ) ≤ grid.grid_width := by omega
  have hwh0 : (0 : ℤ) ≤ grid.grid_width * grid.grid_height :=
    mul_nonneg hw0 (by omega)
  have h1 : y * grid.grid_width ≤ (grid.grid_height - 1) * grid.grid_width :=
    mul_le_mul_of_nonneg_right (by omega) hw0
  have h2 : z * (grid.grid_width * grid.grid_height) ≤
      (grid.grid_depth - 1) * (grid.grid_width * grid.grid_height) :=
    mul_le_mul_of_nonneg_right (by omega) hwh0
  nlinarith

theorem base_decomp_inj {w a1 a2 b1 b2 : ℤ} (ha1 : 0 ≤ a1) (ha1w : a1 < w)
    (ha2 : 0 ≤ a2) (ha2w : a2 < w) (h : a1 + w * b1 = a2 + w * b2) :
    a1 = a2 ∧ b1 = b2 := by
  rcases lt_trichotomy b1 b2 with hb | hb | hb
  · exfalso
    have h2 : w * (b1 + 1) ≤ w * b2 := mul_le_mul_of_nonneg_left (by omega) (by omega)
    have h3 : w * (b1 + 1) = w * b1 + w := by ring
    linarith
  · subst hb
    constructor
    · linarith
    · rfl
  · exfalso
    have h2 : w * (b2 + 1) ≤ w * b1 := mul_le_mul_of_nonneg_left (by omega) (by omega)
    have h3 : w * (b2 + 1) = w * b2 + w := by ring
    linarith

theorem get_cell_index_inj (grid : SpatialGrid) (x1 y1 z1 x2 y2 z2 : ℤ)
    (h1 : 0 ≤ get_cell_index grid x1 y1 z1) (h2 : 0 ≤ get_cell_index grid x2 y2 z2)
    (heq : get_cell_index grid x1 y1 z1 = get_cell_index grid x2 y2 z2) :
    x1 = x2 ∧ y1 = y2 ∧ z1 = z2 := by
  obtain ⟨hx01, hxw1, hy01, hyh1, hz01, hzd1, he1⟩ := get_cell_index_valid grid x1 y1 z1 h1
  obtain ⟨hx02, hxw2, hy02, hyh2, hz02, hzd2, he2⟩ := get_cell_index_valid grid x2 y2 z2 h2
  rw [he1, he2] at heq
  have hre : x1 + grid.grid_width * (y1 + grid.grid_height * z1) =
      x2 + grid.grid_width * (y2 + grid.grid_height * z2) := by linear_combination heq
  have hstep1 := base_decomp_inj hx01 hxw1 hx02 hxw2 hre
  have hstep2 := base_decomp_inj hy01 hyh1 hy02 hyh2 hstep1.2
  exact ⟨hstep1.1, hstep2.1, hstep2.2⟩

/-!
## Counting-sort correctness of `spatial_grid_update`
-/

/-- The agents (among the first `count`) whose position maps to cell `c`,
in index order: the intended content of cell `c`'s run. -/
def bucket (grid : SpatialGrid) (particles : ℕ → Particle ℚ) (count : ℕ) (c : ℤ) : List ℕ :=
  (List.range count).filter (fun i => decide (cellOf grid (particles i).position = c))

theorem bucket_succ (grid : SpatialGrid) (particles : ℕ → Particle ℚ) (n : ℕ) (c : ℤ) :
    bucket grid particles (n + 1) c =
      bucket grid particles n c ++
        (if cellOf grid (particles n).position = c then [n] else []) := by
  unfold bucket
  rw [List.range_succ, List.filter_append]
  congr 1
  split_ifs with h <;> simp [h]

theorem bucket_sub_range (grid : SpatialGrid) (particles : ℕ → Particle ℚ) (count : ℕ)
    (c : ℤ) (i : ℕ) (hi : i ∈ bucket grid particles count c) :
    i < count ∧ cellOf grid (particles i).position = c := by
  unfold bucket at hi
  rw [List.mem_filter] at hi
  exact ⟨List.mem_range.mp hi.1, of_decide_eq_true hi.2⟩

theorem mem_bucket (grid : SpatialGrid) (particles : ℕ → Particle ℚ) (count : ℕ)
    (c : ℤ) (i : ℕ) :
    i ∈ bucket grid particles count c ↔
      i < count ∧ cellOf grid (particles i).position = c := by
  unfold bucket
  rw [List.mem_filter, List.mem_range, decide_eq_true_eq]

theorem bucket_nodup (grid : SpatialGrid) (particles : ℕ → Particle ℚ) (count : ℕ)
    (c : ℤ) : (bucket grid particles count c).Nodup :=
  (List.nodup_range count).filter _

theorem countPass_succ (grid : SpatialGrid) (particles : ℕ → Particle ℚ) (n : ℕ) :
    countPass grid particles (n + 1) =
      if 0 ≤ cellOf grid (particles n).position then
        Function.update (countPass grid particles n)
          (cellOf grid (particles n).position)
          (countPass grid particles n (cellOf grid (particles n).position) + 1)
      else countPass grid particles n := by
  unfold countPass
  rw [List.range_succ, List.foldl_append, List.foldl_cons, List.foldl_nil]

theorem countPass_spec (grid : SpatialGrid) (particles : ℕ → Particle ℚ) :
    ∀ (count : ℕ) (c : ℤ),
      countPass grid particles count c =
        if 0 ≤ c then ((bucket grid particles count c).length : ℤ) else 0 := by
  intro count
  induction count with
  | zero =>
    intro c
    unfold countPass bucket
    simp
  | succ n ih =>
    intro c
    rw [countPass_succ, bucket_succ]
    by_cases h1 : 0 ≤ cellOf grid (particles n).position
    · rw [if_pos h1, Function.update_apply]
      by_cases h2 : c = cellOf grid (particles n).position
      · subst h2
        rw [if_pos rfl, ih, if_pos h1, if_pos h1, if_pos rfl]
        simp [List.length_append]
      · rw [if_neg h2, ih]
        have h3 : cellOf grid (particles n).position ≠ c := fun h => h2 h.symm
        simp [h3]
    · rw [if_neg h1, ih]
      by_cases h2 : cellOf grid (particles n).position = c
      · rw [if_pos h2, if_neg (h2 ▸ h1), if_neg (h2 ▸ h1)]
      · rw [if_neg h2]
        simp

theorem countPass_nonneg (grid : SpatialGrid) (particles : ℕ → Particle ℚ)
    (count : ℕ) (c : ℤ) : 0 ≤ countPass grid particles count c := by
  rw [countPass_spec]
  split_ifs
  · exact Int.ofNat_nonneg _
  · exact le_refl 0

/-- Sum of the counts of the cells strictly below cell `k`: the offset pass 2
assigns to cell `k` when it is occupied. -/
def sumCountsBelow (counts : ℤ → ℤ) (k : ℕ) : ℤ :=
  ((List.range k).map (fun (j : ℕ) => counts (j : ℤ))).sum

theorem sumCountsBelow_succ (counts : ℤ → ℤ) (k : ℕ) :
    sumCountsBelow counts (k + 1) = sumCountsBelow counts k + counts (k : ℤ) := by
  unfold sumCountsBelow
  rw [List.range_succ, List.map_append, List.sum_append]
  simp

theorem sumCountsBelow_nonneg (counts : ℤ → ℤ) (hnn : ∀ j : ℤ, 0 ≤ counts j)
    (k : ℕ) : 0 ≤ sumCountsBelow counts k := by
  induction k with
  | zero => simp [sumCountsBelow]
  | succ n ih =>
    rw [sumCountsBelow_succ]
    have := hnn (n : ℤ)
    omega

theorem sumCountsBelow_mono (counts : ℤ → ℤ) (hnn : ∀ j : ℤ, 0 ≤ counts j) :
    ∀ (k K : ℕ), k ≤ K → sumCountsBelow counts k ≤ sumCountsBelow counts K := by
  intro k K hkK
  induction K with
  | zero =>
    have : k = 0 := by omega
    subst this
    exact le_refl _
  | succ n ih =>
    rcases Nat.eq_or_lt_of_le hkK with rfl | h
    · exact le_refl _
    · have h1 := ih (by omega)
      rw [sumCountsBelow_succ]
      have := hnn (n : ℤ)
      omega

theorem prefixGo_succ (counts : ℤ → ℤ) (K : ℕ) :
    prefixGo counts (K + 1) =
      if 0 < counts (K : ℤ) then
        (Function.update (prefixGo counts K).1 (K : ℤ) (prefixGo counts K).2,
          (prefixGo counts K).2 + counts (K : ℤ))
      else prefixGo counts K := by
  unfold prefixGo
  rw [List.range_succ, List.foldl_append, List.foldl_cons, List.foldl_nil]

theorem prefixGo_offset (counts : ℤ → ℤ) (hnn : ∀ j : ℤ, 0 ≤ counts j) :
    ∀ K : ℕ, (prefixGo counts K).2 = sumCountsBelow counts K := by
  intro K
  induction K with
  | zero => rfl
  | succ n ih =>
    rw [prefixGo_succ, sumCountsBelow_succ]
    split_ifs with h
    · rw [ih]
    · rw [ih]
      have := hnn (n : ℤ)
      omega

theorem prefixGo_starts (counts : ℤ → ℤ) (hnn : ∀ j : ℤ, 0 ≤ counts j) :
    ∀ (K : ℕ) (c : ℤ),
      (prefixGo counts K).1 c =
        if 0 ≤ c ∧ c < (K : ℤ) ∧ 0 < counts c then sumCountsBelow counts c.toNat
        else -1 := by
  intro K
  induction K with
  | zero =>
    intro c
    rw [if_neg (by omega)]
    rfl
  | succ n ih =>
    intro c
    rw [prefixGo_succ]
    by_cases h : 0 < counts (n : ℤ)
    · rw [if_pos h]
      dsimp only
      rw [Function.update_apply]
      by_cases hc : c = (n : ℤ)
      · subst hc
        rw [if_pos rfl, prefixGo_offset counts hnn, if_pos ⟨by omega, by omega, h⟩]
        congr 1
      · rw [if_neg hc, ih]
        by_cases hcond : 0 ≤ c ∧ c < (n : ℤ) ∧ 0 < counts c
        · rw [if_pos hcond, if_pos ⟨hcond.1, by omega, hcond.2.2⟩]
        · have hne : ¬(0 ≤ c ∧ c < ((n + 1 : ℕ) : ℤ) ∧ 0 < counts c) := by
            intro hcond2
            exact hcond ⟨hcond2.1, by omega, hcond2.2.2⟩
          rw [if_neg hcond, if_neg hne]
    · rw [if_neg h, ih]
      by_cases hcond : 0 ≤ c ∧ c < (n : ℤ) ∧ 0 < counts c
      · rw [if_pos hcond, if_pos ⟨hcond.1, by omega, hcond.2.2⟩]
      · have hne : ¬(0 ≤ c ∧ c < ((n + 1 : ℕ) : ℤ) ∧ 0 < counts c) := by
          intro hcond2
          apply hcond
          refine ⟨hcond2.1, ?_, hcond2.2.2⟩
          by_cases hceq : c = (n : ℤ)
          · exact absurd (hceq ▸ hcond2.2.2) h
          · have h1 := hcond2.2.1
            omega
        rw [if_neg hcond, if_neg hne]

theorem bucket_length_mono (grid : SpatialGrid) (particles : ℕ → Particle ℚ)
    (m n : ℕ) (h : m ≤ n) (c : ℤ) :
    (bucket grid particles m c).length ≤ (bucket grid particles n c).length :=
  ((List.range_sublist.mpr h).filter _).length_le

theorem bucket_valid (grid : SpatialGrid) (particles : ℕ → Particle ℚ) (m : ℕ) (c : ℤ)
    (hc : 0 ≤ c) (hlen : 0 < (bucket grid particles m c).length) :
    c < grid.grid_width * grid.grid_height * grid.grid_depth := by
  obtain ⟨i, hi⟩ := List.exists_mem_of_length_pos hlen
  obtain ⟨_, hcell⟩ := bucket_sub_range grid particles m c i hi
  have h1 : 0 ≤ cellOf grid (particles i).position := hcell ▸ hc
  have h2 := get_cell_index_lt_total grid _ _ _ h1
  unfold cellOf at hcell
  omega

theorem scatterPass_succ (grid : SpatialGrid) (particles : ℕ → Particle ℚ)
    (starts : ℤ → ℤ) (m : ℕ) :
    scatterPass grid particles (m + 1) starts =
      if 0 ≤ cellOf grid (particles m).position then
        (Function.update (scatterPass grid particles m starts).1
          (starts (cellOf grid (particles m).position) +
            (scatterPass grid particles m starts).2 (cellOf grid (particles m).position)) m,
         Function.update (scatterPass grid particles m starts).2
          (cellOf grid (particles m).position)
          ((scatterPass grid particles m starts).2 (cellOf grid (particles m).position) + 1))
      else scatterPass grid particles m starts := by
  unfold scatterPass
  rw [List.range_succ, List.foldl_append, List.foldl_cons, List.foldl_nil]

theorem scatterPass_counts (grid : SpatialGrid) (particles : ℕ → Particle ℚ)
    (starts : ℤ → ℤ) :
    ∀ m : ℕ, (scatterPass grid particles m starts).2 = countPass grid particles m := by
  intro m
  induction m with
  | zero => rfl
  | succ n ih =>
    rw [scatterPass_succ, countPass_succ]
    split_ifs with h
    · dsimp only
      rw [ih]
    · exact ih

theorem scatterPass_indices (grid : SpatialGrid) (particles : ℕ → Particle ℚ) (count : ℕ)
    (htot : grid.total_cells = grid.grid_width * grid.grid_height * grid.grid_depth) :
    ∀ m : ℕ, m ≤ count →
      ∀ c : ℤ, 0 ≤ c →
        ∀ t : ℕ, t < (bucket grid particles m c).length →
          (scatterPass grid particles m
            (prefixPass (countPass grid particles count) grid.total_cells).1).1
            (sumCountsBelow (countPass grid particles count) c.toNat + (t : ℤ)) =
          (bucket grid particles m c).getD t 0 := by
  have hnn : ∀ j : ℤ, 0 ≤ countPass grid particles count j :=
    countPass_nonneg grid particles count
  intro m
  induction m with
  | zero =>
    intro _ c _ t ht
    simp [bucket] at ht
  | succ n ih =>
    intro hm1 c hc t ht
    have hn : n ≤ count := by omega
    rw [scatterPass_succ]
    by_cases he : 0 ≤ cellOf grid (particles n).position
    · rw [if_pos he]
      dsimp only
      have hmem_count : n ∈ bucket grid particles count
          (cellOf grid (particles n).position) :=
        (mem_bucket grid particles count _ n).mpr ⟨by omega, rfl⟩
      have hlenpos : 0 < (bucket grid particles count
          (cellOf grid (particles n).position)).length :=
        List.length_pos.mpr (List.ne_nil_of_mem hmem_count)
      have hcountse : 0 < countPass grid particles count
          (cellOf grid (particles n).position) := by
        rw [countPass_spec, if_pos he]
        exact_mod_cast hlenpos
      have hetot : cellOf grid (particles n).position < grid.total_cells :=
        htot ▸ bucket_valid grid particles count _ he hlenpos
      have hstartse : (prefixPass (countPass grid particles count) grid.total_cells).1
          (cellOf grid (particles n).position) =
          sumCountsBelow (countPass grid particles count)
            (cellOf grid (particles n).position).toNat := by
        show (prefixGo (countPass grid particles count) grid.total_cells.toNat).1 _ = _
        rw [prefixGo_starts _ hnn, if_pos ⟨he, by omega, hcountse⟩]
      have hprev2e : (scatterPass grid particles n
          (prefixPass (countPass grid particles count) grid.total_cells).1).2
          (cellOf grid (particles n).position) =
          ((bucket grid particles n (cellOf grid (particles n).position)).length : ℤ) := by
        rw [scatterPass_counts, countPass_spec, if_pos he]
      rw [Function.update_apply]
      by_cases hce : cellOf grid (particles n).position = c
      · subst hce
        rw [bucket_succ, if_pos rfl] at ht ⊢
        rw [List.length_append, List.length_singleton] at ht
        rcases Nat.lt_succ_iff_lt_or_eq.mp ht with htlt | hteq
        · rw [if_neg (by rw [hprev2e, hstartse]; omega)]
          rw [List.getD_append _ _ _ _ htlt]
          exact ih hn _ he t htlt
        · subst hteq
          rw [if_pos (by rw [hprev2e, hstartse])]
          rw [List.getD_append_right _ _ _ _ (le_refl _)]
          simp
      · rw [bucket_succ, if_neg hce, List.append_nil] at ht ⊢
        have hclen : 0 < (bucket grid particles n c).length := by omega
        have hctot : c < grid.total_cells :=
          htot ▸ bucket_valid grid particles n c hc hclen
        have hccount : ((bucket grid particles n c).length : ℤ) ≤
            countPass grid particles count c := by
          rw [countPass_spec, if_pos hc]
          exact_mod_cast bucket_length_mono grid particles n count hn c
        have hecount : ((bucket grid particles n
            (cellOf grid (particles n).position)).length : ℤ) <
            countPass grid particles count (cellOf grid (particles n).position) := by
          rw [countPass_spec, if_pos he]
          have h1 : (bucket grid particles (n + 1)
              (cellOf grid (particles n).position)).length =
              (bucket grid particles n (cellOf grid (particles n).position)).length + 1 := by
            rw [bucket_succ, if_pos rfl, List.length_append, List.length_singleton]
          have h2 := bucket_length_mono grid particles (n + 1) count hm1
            (cellOf grid (particles n).position)
          omega
        have hdisj : sumCountsBelow (countPass grid particles count) c.toNat + (t : ℤ) ≠
            (prefixPass (countPass grid particles count) grid.total_cells).1
              (cellOf grid (particles n).position) +
            (scatterPass grid particles n
              (prefixPass (countPass grid particles count) grid.total_cells).1).2
              (cellOf grid (particles n).position) := by
          rw [hprev2e, hstartse]
          rcases lt_or_gt_of_ne (fun h => hce h.symm) with hlt | hgt
          · -- c < e : positions of c end before the start of e
            have hsucc : sumCountsBelow (countPass grid particles count) (c.toNat + 1) =
                sumCountsBelow (countPass grid particles count) c.toNat +
                  countPass grid particles count c := by
              rw [sumCountsBelow_succ]
              congr 1
              congr 1
              omega
            have hmono := sumCountsBelow_mono (countPass grid particles count) hnn
              (c.toNat + 1) (cellOf grid (particles n).position).toNat (by omega)
            have htc : (t : ℤ) < countPass grid particles count c := by
              have : (t : ℤ) < ((bucket grid particles n c).length : ℤ) := by
                exact_mod_cast ht
              omega
            have hlen0 : (0 : ℤ) ≤ ((bucket grid particles n
                (cellOf grid (particles n).position)).length : ℤ) := by positivity
            omega
          · -- e < c : positions of e end before the start of c
            have hsucc : sumCountsBelow (countPass grid particles count)
                ((cellOf grid (particles n).position).toNat + 1) =
                sumCountsBelow (countPass grid particles count)
                  (cellOf grid (particles n).position).toNat +
                  countPass grid particles count (cellOf grid (particles n).position) := by
              rw [sumCountsBelow_succ]
              congr 1
              congr 1
              omega
            have hmono := sumCountsBelow_mono (countPass grid particles count) hnn
              ((cellOf grid (particles n).position).toNat + 1) c.toNat (by omega)
            have ht0 : (0 : ℤ) ≤ (t : ℤ) := by positivity
            omega
        rw [if_neg hdisj]
        exact ih hn c hc t ht
    · rw [if_neg he]
      have hcene : ¬ cellOf grid (particles n).position = c := by
        intro h
        exact he (by rw [h]; exact hc)
      rw [bucket_succ, if_neg hcene, List.append_nil] at ht ⊢
      exact ih hn c hc t ht

theorem map_range_getD (l : List ℕ) (f : ℕ → ℕ)
    (h : ∀ t : ℕ, t < l.length → f t = l.getD t 0) :
    (List.range l.length).map f = l := by
  apply List.ext_get
  · simp
  · intro i h1 h2
    have hi : i < l.length := h2
    rw [List.get_map, List.get_range]
    rw [h i hi, List.getD_eq_get l 0 hi]

theorem cellRun_update (grid : SpatialGrid) (particles : ℕ → Particle ℚ) (count : ℕ)
    (htot : grid.total_cells = grid.grid_width * grid.grid_height * grid.grid_depth)
    (c : ℤ) (hc : 0 ≤ c) :
    cellRun (spatial_grid_update grid particles count) c =
      bucket grid particles count c := by
  have hnn := countPass_nonneg grid particles count
  unfold spatial_grid_update cellRun
  dsimp only
  rw [scatterPass_counts]
  by_cases hocc : 0 < countPass grid particles count c
  · have hlenpos : 0 < (bucket grid particles count c).length := by
      have hs := countPass_spec grid particles count c
      rw [if_pos hc] at hs
      omega
    have hctot : c < grid.total_cells :=
      htot ▸ bucket_valid grid particles count c hc hlenpos
    have hstarts : (prefixPass (countPass grid particles count) grid.total_cells).1 c =
        sumCountsBelow (countPass grid particles count) c.toNat := by
      show (prefixGo _ grid.total_cells.toNat).1 c = _
      rw [prefixGo_starts _ hnn, if_pos ⟨hc, by omega, hocc⟩]
    have hsnn : 0 ≤ sumCountsBelow (countPass grid particles count) c.toNat :=
      sumCountsBelow_nonneg _ hnn _
    rw [hstarts, if_neg (by omega)]
    have hcnt : (countPass grid particles count c).toNat =
        (bucket grid particles count c).length := by
      rw [countPass_spec, if_pos hc]
      simp
    rw [hcnt]
    apply map_range_getD
    intro t ht
    exact scatterPass_indices grid particles count htot count (le_refl _) c hc t ht
  · have hlen0 : (bucket grid particles count c).length = 0 := by
      have hs := countPass_spec grid particles count c
      rw [if_pos hc] at hs
      omega
    have hstarts : (prefixPass (countPass grid particles count) grid.total_cells).1 c =
        (-1 : ℤ) := by
      show (prefixGo _ grid.total_cells.toNat).1 c = _
      rw [prefixGo_starts _ hnn, if_neg (fun h => hocc h.2.2)]
    rw [hstarts, if_pos (by omega)]
    exact (List.length_eq_zero.mp hlen0).symm

theorem cell_counts_update (grid : SpatialGrid) (particles : ℕ → Particle ℚ) (count : ℕ)
    (c : ℤ) (hc : 0 ≤ c) :
    (spatial_grid_update grid particles count).cell_counts c =
      ((bucket grid particles count c).length : ℤ) := by
  unfold spatial_grid_update
  dsimp only
  rw [scatterPass_counts, countPass_spec, if_pos hc]

theorem list_sum_map_add {α : Type} (l : List α) (f g : α → ℤ) :
    (l.map (fun a => f a + g a)).sum = (l.map f).sum + (l.map g).sum := by
  induction l with
  | nil => simp
  | cons a l ih =>
    simp only [List.map_cons, List.sum_cons, ih]
    ring

theorem sum_indicator_range (K : ℕ) (a : ℤ) :
    ((List.range K).map (fun (c : ℕ) => if a = (c : ℤ) then (1 : ℤ) else 0)).sum =
      if 0 ≤ a ∧ a < (K : ℤ) then 1 else 0 := by
  induction K with
  | zero =>
    rw [if_neg (by omega)]
    rfl
  | succ n ih =>
    rw [List.range_succ, List.map_append, List.sum_append, ih]
    simp only [List.map_cons, List.map_nil, List.sum_cons, List.sum_nil]
    split_ifs <;> omega

theorem sum_bucket_lengths (grid : SpatialGrid) (particles : ℕ → Particle ℚ)
    (htot : grid.total_cells = grid.grid_width * grid.grid_height * grid.grid_depth) :
    ∀ count : ℕ,
      ((List.range grid.total_cells.toNat).map
        (fun (c : ℕ) => ((bucket grid particles count (c : ℤ)).length : ℤ))).sum =
      (((List.range count).filter
        (fun i => decide (0 ≤ cellOf grid (particles i).position))).length : ℤ) := by
  intro count
  induction count with
  | zero =>
    simp [bucket]
  | succ n ih =>
    have hmap : ∀ c : ℕ, c ∈ List.range grid.total_cells.toNat →
        ((bucket grid particles (n + 1) (c : ℤ)).length : ℤ) =
        ((bucket grid particles n (c : ℤ)).length : ℤ) +
          (if cellOf grid (particles n).position = (c : ℤ) then (1 : ℤ) else 0) := by
      intro c _
      rw [bucket_succ, List.length_append]
      split_ifs <;> simp
    rw [List.map_congr_left hmap, list_sum_map_add, ih, sum_indicator_range,
      List.range_succ, List.filter_append, List.length_append]
    by_cases he : 0 ≤ cellOf grid (particles n).position
    · have h2 : cellOf grid (particles n).position <
          grid.grid_width * grid.grid_height * grid.grid_depth := by
        unfold cellOf
        exact get_cell_index_lt_total grid _ _ _ he
      have h1 : cellOf grid (particles n).position < (grid.total_cells.toNat : ℤ) := by
        omega
      rw [if_pos ⟨he, h1⟩]
      simp [he]
    · rw [if_neg (fun h => he h.1)]
      simp [he]

/-- Claim C2: after every `spatial_grid_update`, the sum of all cell occupancy
counts equals the number of agents whose position maps to an in-bounds cell,
and every such agent's index lies in exactly one cell's stored run
`indices[cell_start .. cell_start + cell_count)`, namely the run of the cell
its position maps to. -/
theorem grid_occupancy_invariant (grid : SpatialGrid) (particles : ℕ → Particle ℚ)
    (count : ℕ)
    (htot : grid.total_cells = grid.grid_width * grid.grid_height * grid.grid_depth) :
    ((List.range grid.total_cells.toNat).map
      (fun (c : ℕ) =>
        (spatial_grid_update grid particles count).cell_counts (c : ℤ))).sum =
      (((List.range count).filter
        (fun i => decide (0 ≤ cellOf grid (particles i).position))).length : ℤ) ∧
    ∀ i : ℕ, i < count → 0 ≤ cellOf grid (particles i).position →
      ∀ c : ℤ, 0 ≤ c →
        (i ∈ cellRun (spatial_grid_update grid particles count) c ↔
          c = cellOf grid (particles i).position) := by
  constructor
  · rw [← sum_bucket_lengths grid particles htot count]
    congr 1
    apply List.map_congr_left
    intro c _
    exact cell_counts_update grid particles count (c : ℤ) (Int.natCast_nonneg c)
  · intro i hi _ c hc
    rw [cellRun_update grid particles count htot c hc, mem_bucket]
    constructor
    · intro h
      exact h.2.symm
    · intro h
      exact ⟨hi, h.symm⟩

/-- Concrete grid for witnesses: 2x1x1 cells of size 10. -/
def gridW : SpatialGrid :=
  { particle_indices := fun _ => 0, cell_starts := fun _ => -1, cell_counts := fun _ => 0,
    grid_width := 2, grid_height := 1, grid_depth := 1, cell_size := 10,
    total_cells := 2, num_particles := 2 }

/-- Two concrete particles, one in each cell of `gridW`. -/
def particlesW : ℕ → Particle ℚ :=
  fun i => if i = 0 then mkP 5 5 5 else mkP 15 5 5

/-- Witness for the C2 theorem on a concrete two-particle grid. -/
theorem grid_occupancy_invariant_witness :
    gridW.total_cells = gridW.grid_width * gridW.grid_height * gridW.grid_depth ∧
    ((List.range gridW.total_cells.toNat).map
      (fun (c : ℕ) =>
        (spatial_grid_update gridW particlesW 2).cell_counts (c : ℤ))).sum =
      (((List.range 2).filter
        (fun i => decide (0 ≤ cellOf gridW (particlesW i).position))).length : ℤ) :=
  ⟨by decide, (grid_occupancy_invariant gridW particlesW 2 (by decide)).1⟩

/-!
## Query cap and exactness
-/

theorem queryStep_fold_length_le (particles : ℕ → Particle ℚ) (position : Vector3D ℚ)
    (radius_sq : ℚ) :
    ∀ (cand buf : List ℕ), buf.length ≤ MAX_NEIGHBORS →
      (cand.foldl (queryStep particles position radius_sq) buf).length ≤ MAX_NEIGHBORS := by
  intro cand
  induction cand with
  | nil =>
    intro buf h
    exact h
  | cons a l ih =>
    intro buf h
    rw [List.foldl_cons]
    apply ih
    unfold queryStep
    split_ifs with hcond
    · rw [List.length_append, List.length_singleton]
      omega
    · exact h

/-- Claim C6: for any grid state, any query point and any radius — including
all agents clustered at one point — `spatial_grid_query_neighbors` returns at
most `MAX_NEIGHBORS` indices; in the list model the output buffer is the
returned list, so every written index is inside its first `MAX_NEIGHBORS`
slots. -/
theorem query_neighbor_cap (grid : SpatialGrid) (particles : ℕ → Particle ℚ)
    (position : Vector3D ℚ) (radius : ℚ) :
    (spatial_grid_query_neighbors grid particles position radius).length ≤
      MAX_NEIGHBORS := by
  unfold spatial_grid_query_neighbors
  have hgen : ∀ (L : List (ℤ × ℤ × ℤ)) (buf : List ℕ), buf.length ≤ MAX_NEIGHBORS →
      (L.foldl
        (fun buf d =>
          (scanCell grid (get_grid_coords grid position).1
            (get_grid_coords grid position).2.1
            (get_grid_coords grid position).2.2 d).foldl
            (queryStep particles position (radius * radius)) buf)
        buf).length ≤ MAX_NEIGHBORS := by
    intro L
    induction L with
    | nil =>
      intro buf h
      exact h
    | cons d L ih =>
      intro buf h
      rw [List.foldl_cons]
      exact ih _ (queryStep_fold_length_le particles position (radius * radius) _ buf h)
  exact hgen neighborOffsets [] (by decide)

/-- All candidate indices scanned by one query, in scan order: the runs of the
27 scanned cells, concatenated. -/
def queryCandidates (grid : SpatialGrid) (position : Vector3D ℚ) : List ℕ :=
  (neighborOffsets.map
    (scanCell grid (get_grid_coords grid position).1
      (get_grid_coords grid position).2.1 (get_grid_coords grid position).2.2)).flatten

theorem foldl_flatten_eq {α β : Type} (f : β → α → β) :
    ∀ (L : List (List α)) (b : β),
      L.flatten.foldl f b = L.foldl (fun b l => l.foldl f b) b := by
  intro L
  induction L with
  | nil =>
    intro b
    rfl
  | cons l L ih =>
    intro b
    rw [List.flatten_cons, List.foldl_append, List.foldl_cons, ih]

theorem query_eq_foldl_candidates (grid : SpatialGrid) (particles : ℕ → Particle ℚ)
    (position : Vector3D ℚ) (radius : ℚ) :
    spatial_grid_query_neighbors grid particles position radius =
      (queryCandidates grid position).foldl
        (queryStep particles position (radius * radius)) [] := by
  unfold spatial_grid_query_neighbors queryCandidates
  rw [foldl_flatten_eq, List.foldl_map]

theorem foldl_queryStep_eq_filter (particles : ℕ → Particle ℚ) (position : Vector3D ℚ)
    (radius_sq : ℚ) :
    ∀ (cand buf : List ℕ),
      buf.length + (cand.filter (fun i => decide (vec3_dist_sq_inline position
        (particles i).position < radius_sq))).length ≤ MAX_NEIGHBORS →
      cand.foldl (queryStep particles position radius_sq) buf =
        buf ++ cand.filter (fun i => decide (vec3_dist_sq_inline position
          (particles i).position < radius_sq)) := by
  intro cand
  induction cand with
  | nil =>
    intro buf _
    simp
  | cons a l ih =>
    intro buf hcap
    rw [List.foldl_cons]
    by_cases ha : vec3_dist_sq_inline position (particles a).position < radius_sq
    · rw [List.filter_cons_of_pos (by simpa using ha)] at hcap ⊢
      rw [List.length_cons] at hcap
      have hlen : buf.length < MAX_NEIGHBORS := by omega
      have hstep : queryStep particles position radius_sq buf a = buf ++ [a] := by
        unfold queryStep
        rw [if_pos ⟨hlen, ha⟩]
      rw [hstep, ih (buf ++ [a])
        (by rw [List.length_append, List.length_singleton]; omega)]
      simp
    · rw [List.filter_cons_of_neg (by simpa using ha)] at hcap ⊢
      have hstep : queryStep particles position radius_sq buf a = buf := by
        unfold queryStep
        rw [if_neg (fun h => ha h.2)]
      rw [hstep]
      exact ih buf hcap

theorem get_cell_index_update (grid : SpatialGrid) (particles : ℕ → Particle ℚ)
    (count : ℕ) (x y z : ℤ) :
    get_cell_index (spatial_grid_update grid particles count) x y z =
      get_cell_index grid x y z := rfl

theorem get_grid_coords_update (grid : SpatialGrid) (particles : ℕ → Particle ℚ)
    (count : ℕ) (pos : Vector3D ℚ) :
    get_grid_coords (spatial_grid_update grid particles count) pos =
      get_grid_coords grid pos := rfl

theorem scanCell_update_sub (grid : SpatialGrid) (particles : ℕ → Particle ℚ)
    (count : ℕ)
    (htot : grid.total_cells = grid.grid_width * grid.grid_height * grid.grid_depth)
    (cx cy cz : ℤ) (d : ℤ × ℤ × ℤ) (i : ℕ)
    (h : i ∈ scanCell (spatial_grid_update grid particles count) cx cy cz d) :
    i < count ∧ 0 ≤ get_cell_index grid (cx + d.1) (cy + d.2.1) (cz + d.2.2) ∧
      cellOf grid (particles i).position =
        get_cell_index grid (cx + d.1) (cy + d.2.1) (cz + d.2.2) := by
  unfold scanCell at h
  rw [get_cell_index_update] at h
  split_ifs at h with hc
  · exact absurd h (List.not_mem_nil i)
  · push_neg at hc
    rw [cellRun_update grid particles count htot _ hc] at h
    obtain ⟨hi, hcell⟩ := (mem_bucket grid particles count _ i).mp h
    exact ⟨hi, hc, hcell⟩

theorem scanCell_update_nodup (grid : SpatialGrid) (particles : ℕ → Particle ℚ)
    (count : ℕ)
    (htot : grid.total_cells = grid.grid_width * grid.grid_height * grid.grid_depth)
    (cx cy cz : ℤ) (d : ℤ × ℤ × ℤ) :
    (scanCell (spatial_grid_update grid particles count) cx cy cz d).Nodup := by
  unfold scanCell
  rw [get_cell_index_update]
  split_ifs with hc
  · exact List.nodup_nil
  · push_neg at hc
    rw [cellRun_update grid particles count htot _ hc]
    exact bucket_nodup grid particles count _

theorem scanCell_update_disjoint (grid : SpatialGrid) (particles : ℕ → Particle ℚ)
    (count : ℕ)
    (htot : grid.total_cells = grid.grid_width * grid.grid_height * grid.grid_depth)
    (cx cy cz : ℤ) (d1 d2 : ℤ × ℤ × ℤ) (hne : d1 ≠ d2) :
    List.Disjoint (scanCell (spatial_grid_update grid particles count) cx cy cz d1)
      (scanCell (spatial_grid_update grid particles count) cx cy cz d2) := by
  intro i h1 h2
  obtain ⟨_, hc1, he1⟩ := scanCell_update_sub grid particles count htot cx cy cz d1 i h1
  obtain ⟨_, hc2, he2⟩ := scanCell_update_sub grid particles count htot cx cy cz d2 i h2
  have hceq : get_cell_index grid (cx + d1.1) (cy + d1.2.1) (cz + d1.2.2) =
      get_cell_index grid (cx + d2.1) (cy + d2.2.1) (cz + d2.2.2) := by
    rw [← he1, ← he2]
  obtain ⟨hx, hy, hz⟩ := get_cell_index_inj grid _ _ _ _ _ _ hc1 (hceq ▸ hc1) hceq
  apply hne
  obtain ⟨dx1, dy1, dz1⟩ := d1
  obtain ⟨dx2, dy2, dz2⟩ := d2
  dsimp only at hx hy hz
  simp only [Prod.mk.injEq]
  refine ⟨by omega, by omega, by omega⟩

theorem queryCandidates_update_nodup (grid : SpatialGrid) (particles : ℕ → Particle ℚ)
    (count : ℕ)
    (htot : grid.total_cells = grid.grid_width * grid.grid_height * grid.grid_depth)
    (position : Vector3D ℚ) :
    (queryCandidates (spatial_grid_update grid particles count) position).Nodup := by
  unfold queryCandidates
  rw [List.nodup_flatten]
  constructor
  · intro l hl
    rw [List.mem_map] at hl
    obtain ⟨d, _, rfl⟩ := hl
    exact scanCell_update_nodup grid particles count htot _ _ _ d
  · rw [List.pairwise_map]
    have hoff : neighborOffsets.Pairwise (fun a b => a ≠ b) := by
      have : neighborOffsets.Nodup := by decide
      exact this
    exact hoff.imp (fun hab =>
      scanCell_update_disjoint grid particles count htot _ _ _ _ _ hab)

theorem mem_queryCandidates_lt (grid : SpatialGrid) (particles : ℕ → Particle ℚ)
    (count : ℕ)
    (htot : grid.total_cells = grid.grid_width * grid.grid_height * grid.grid_depth)
    (position : Vector3D ℚ) (i : ℕ)
    (h : i ∈ queryCandidates (spatial_grid_update grid particles count) position) :
    i < count := by
  unfold queryCandidates at h
  rw [List.mem_flatten] at h
  obtain ⟨l, hl, hil⟩ := h
  rw [List.mem_map] at hl
  obtain ⟨d, _, rfl⟩ := hl
  rw [get_grid_coords_update] at hil
  exact (scanCell_update_sub grid particles count htot _ _ _ d i hil).1

theorem dist_sq_axis_bound (v1 v2 : Vector3D ℚ) (r : ℚ) (hr : 0 ≤ r)
    (h : vec3_dist_sq_inline v1 v2 < r * r) :
    |v1.x - v2.x| < r ∧ |v1.y - v2.y| < r ∧ |v1.z - v2.z| < r := by
  unfold vec3_dist_sq_inline at h
  refine ⟨abs_lt.mpr ⟨?_, ?_⟩, abs_lt.mpr ⟨?_, ?_⟩, abs_lt.mpr ⟨?_, ?_⟩⟩ <;>
    nlinarith [mul_self_nonneg (v1.x - v2.x), mul_self_nonneg (v1.y - v2.y),
      mul_self_nonneg (v1.z - v2.z), mul_self_nonneg (v1.x - v2.x - r),
      mul_self_nonneg (v1.x - v2.x + r), mul_self_nonneg (v1.y - v2.y - r),
      mul_self_nonneg (v1.y - v2.y + r), mul_self_nonneg (v1.z - v2.z - r),
      mul_self_nonneg (v1.z - v2.z + r)]

theorem cTrunc_div_close (cs : ℚ) (hcs : 0 < cs) (u v : ℚ) (h : |u - v| < cs) :
    cTrunc (u / cs) ≤ cTrunc (v / cs) + 1 ∧ cTrunc (v / cs) ≤ cTrunc (u / cs) + 1 := by
  obtain ⟨h1, h2⟩ := abs_lt.mp h
  have hdiv : ∀ a b : ℚ, a < b + cs → a / cs < b / cs + 1 := by
    intro a b hab
    have hq : a / cs < (b + cs) / cs := div_lt_div_of_pos_right hab hcs
    have heq : (b + cs) / cs = b / cs + 1 := by
      rw [add_div, div_self (ne_of_gt hcs)]
    linarith
  constructor
  · exact cTrunc_le_add_one _ _ (hdiv u v (by linarith))
  · exact cTrunc_le_add_one _ _ (hdiv v u (by linarith))

theorem mem_neighborOffsets (a b c : ℤ) (ha1 : -1 ≤ a) (ha2 : a ≤ 1)
    (hb1 : -1 ≤ b) (hb2 : b ≤ 1) (hc1 : -1 ≤ c) (hc2 : c ≤ 1) :
    (a, b, c) ∈ neighborOffsets := by
  have ha : a = -1 ∨ a = 0 ∨ a = 1 := by omega
  have hb : b = -1 ∨ b = 0 ∨ b = 1 := by omega
  have hc : c = -1 ∨ c = 0 ∨ c = 1 := by omega
  rcases ha with rfl | rfl | rfl <;> rcases hb with rfl | rfl | rfl <;>
    rcases hc with rfl | rfl | rfl <;> decide

theorem get_grid_coords_x (grid : SpatialGrid) (pos : Vector3D ℚ) :
    (get_grid_coords grid pos).1 = cTrunc (pos.x / grid.cell_size) := rfl

theorem get_grid_coords_y (grid : SpatialGrid) (pos : Vector3D ℚ) :
    (get_grid_coords grid pos).2.1 = cTrunc (pos.y / grid.cell_size) := rfl

theorem get_grid_coords_z (grid : SpatialGrid) (pos : Vector3D ℚ) :
    (get_grid_coords grid pos).2.2 = cTrunc (pos.z / grid.cell_size) := rfl

theorem mem_queryCandidates_of_in_range (grid : SpatialGrid)
    (particles : ℕ → Particle ℚ) (count : ℕ) (position : Vector3D ℚ) (radius : ℚ)
    (htot : grid.total_cells = grid.grid_width * grid.grid_height * grid.grid_depth)
    (hcs : 0 < grid.cell_size) (hr0 : 0 ≤ radius) (hrcs : radius ≤ grid.cell_size)
    (i : ℕ) (hi : i < count) (hib : 0 ≤ cellOf grid (particles i).position)
    (hd : vec3_dist_sq_inline position (particles i).position < radius * radius) :
    i ∈ queryCandidates (spatial_grid_update grid particles count) position := by
  obtain ⟨hax, hay, haz⟩ := dist_sq_axis_bound position (particles i).position radius hr0 hd
  obtain ⟨hx1, hx2⟩ := cTrunc_div_close grid.cell_size hcs position.x
    (particles i).position.x (lt_of_lt_of_le hax hrcs)
  obtain ⟨hy1, hy2⟩ := cTrunc_div_close grid.cell_size hcs position.y
    (particles i).position.y (lt_of_lt_of_le hay hrcs)
  obtain ⟨hz1, hz2⟩ := cTrunc_div_close grid.cell_size hcs position.z
    (particles i).position.z (lt_of_lt_of_le haz hrcs)
  unfold queryCandidates
  rw [List.mem_flatten]
  refine ⟨scanCell (spatial_grid_update grid particles count)
      (get_grid_coords grid position).1 (get_grid_coords grid position).2.1
      (get_grid_coords grid position).2.2
      (cTrunc ((particles i).position.x / grid.cell_size) -
        cTrunc (position.x / grid.cell_size),
       cTrunc ((particles i).position.y / grid.cell_size) -
        cTrunc (position.y / grid.cell_size),
       cTrunc ((particles i).position.z / grid.cell_size) -
        cTrunc (position.z / grid.cell_size)), ?_, ?_⟩
  · apply List.mem_map_of_mem
    exact mem_neighborOffsets _ _ _ (by omega) (by omega) (by omega) (by omega)
      (by omega) (by omega)
  · unfold scanCell
    dsimp only
    rw [get_cell_index_update]
    have hargx : (get_grid_coords grid position).1 +
        (cTrunc ((particles i).position.x / grid.cell_size) -
          cTrunc (position.x / grid.cell_size)) =
        cTrunc ((particles i).position.x / grid.cell_size) := by
      rw [get_grid_coords_x]
      ring
    have hargy : (get_grid_coords grid position).2.1 +
        (cTrunc ((particles i).position.y / grid.cell_size) -
          cTrunc (position.y / grid.cell_size)) =
        cTrunc ((particles i).position.y / grid.cell_size) := by
      rw [get_grid_coords_y]
      ring
    have hargz : (get_grid_coords grid position).2.2 +
        (cTrunc ((particles i).position.z / grid.cell_size) -
          cTrunc (position.z / grid.cell_size)) =
        cTrunc ((particles i).position.z / grid.cell_size) := by
      rw [get_grid_coords_z]
      ring
    rw [hargx, hargy, hargz]
    have hcell : cellOf grid (particles i).position =
        get_cell_index grid (cTrunc ((particles i).position.x / grid.cell_size))
          (cTrunc ((particles i).position.y / grid.cell_size))
          (cTrunc ((particles i).position.z / grid.cell_size)) := rfl
    rw [← hcell, if_neg (not_lt.mpr hib),
      cellRun_update grid particles count htot _ hib]
    exact (mem_bucket grid particles count _ i).mpr ⟨hi, rfl⟩

theorem query_update_exact (grid : SpatialGrid) (particles : ℕ → Particle ℚ)
    (count : ℕ) (position : Vector3D ℚ) (radius : ℚ)
    (htot : grid.total_cells = grid.grid_width * grid.grid_height * grid.grid_depth)
    (hcs : 0 < grid.cell_size) (hr0 : 0 ≤ radius) (hrcs : radius ≤ grid.cell_size)
    (hin : ∀ i : ℕ, i < count → 0 ≤ cellOf grid (particles i).position)
    (hcap : ((List.range count).filter (fun i => decide (vec3_dist_sq_inline position
      (particles i).position < radius * radius))).length ≤ MAX_NEIGHBORS) :
    (spatial_grid_query_neighbors (spatial_grid_update grid particles count)
      particles position radius).Nodup ∧
    ∀ i : ℕ,
      i ∈ spatial_grid_query_neighbors (spatial_grid_update grid particles count)
          particles position radius ↔
        (i < count ∧
          vec3_dist_sq_inline position (particles i).position < radius * radius) := by
  have hNodup := queryCandidates_update_nodup grid particles count htot position
  have hsub : (queryCandidates (spatial_grid_update grid particles count)
      position).filter (fun i => decide (vec3_dist_sq_inline position
        (particles i).position < radius * radius)) ⊆
      (List.range count).filter (fun i => decide (vec3_dist_sq_inline position
        (particles i).position < radius * radius)) := by
    intro j hj
    rw [List.mem_filter] at hj ⊢
    exact ⟨List.mem_range.mpr
      (mem_queryCandidates_lt grid particles count htot position j hj.1), hj.2⟩
  have hfnd : ((queryCandidates (spatial_grid_update grid particles count)
      position).filter (fun i => decide (vec3_dist_sq_inline position
        (particles i).position < radius * radius))).Nodup := hNodup.filter _
  have hflen : ((queryCandidates (spatial_grid_update grid particles count)
      position).filter (fun i => decide (vec3_dist_sq_inline position
        (particles i).position < radius * radius))).length ≤ MAX_NEIGHBORS :=
    le_trans (List.Subperm.length_le (hfnd.subperm hsub)) hcap
  have hq : spatial_grid_query_neighbors (spatial_grid_update grid particles count)
      particles position radius =
      (queryCandidates (spatial_grid_update grid particles count) position).filter
        (fun i => decide (vec3_dist_sq_inline position
          (particles i).position < radius * radius)) := by
    rw [query_eq_foldl_candidates,
      foldl_queryStep_eq_filter particles position (radius * radius) _ []
        (by simpa using hflen)]
    simp
  constructor
  · rw [hq]
    exact hfnd
  · intro i
    rw [hq, List.mem_filter]
    constructor
    · rintro ⟨hiC, hPi⟩
      exact ⟨mem_queryCandidates_lt grid particles count htot position i hiC,
        of_decide_eq_true hPi⟩
    · rintro ⟨hi, hdist⟩
      exact ⟨mem_queryCandidates_of_in_range grid particles count position radius
        htot hcs hr0 hrcs i hi (hin i hi) hdist, decide_eq_true hdist⟩

/-- Claim C1 (amended): for a grid built by `spatial_grid_update` with
`0 < cell_size`, query radius `r` with `0 ≤ r ≤ cell_size`, every agent's
position mapping to an in-bounds cell, and the number of agents strictly
within distance `r` of the query point at most `MAX_NEIGHBORS`, the query
returns exactly the agent indices whose squared distance to the point is
strictly below `r * r` (no duplicates, each accepted candidate passes the
strict test, and no in-range agent is missed). The in-bounds hypothesis is
forced: an agent dropped from the grid is invisible to the query even when it
is strictly within range (see the counterexample). -/
theorem query_subset_correctness (grid : SpatialGrid) (particles : ℕ → Particle ℚ)
    (count : ℕ) (position : Vector3D ℚ) (radius : ℚ)
    (htot : grid.total_cells = grid.grid_width * grid.grid_height * grid.grid_depth)
    (hcs : 0 < grid.cell_size) (hr0 : 0 ≤ radius) (hrcs : radius ≤ grid.cell_size)
    (hin : ∀ i : ℕ, i < count → 0 ≤ cellOf grid (particles i).position)
    (hcap : ((List.range count).filter (fun i => decide (vec3_dist_sq_inline position
      (particles i).position < radius * radius))).length ≤ MAX_NEIGHBORS) :
    (spatial_grid_query_neighbors (spatial_grid_update grid particles count)
      particles position radius).Nodup ∧
    ∀ i : ℕ,
      i ∈ spatial_grid_query_neighbors (spatial_grid_update grid particles count)
          particles position radius ↔
        (i < count ∧
          vec3_dist_sq_inline position (particles i).position < radius * radius) :=
  query_update_exact grid particles count position radius htot hcs hr0 hrcs hin hcap

/-- Concrete grid for the C1 scenario: 2x2x2 cells of size 50 (a 100^3 world). -/
def gridQW : SpatialGrid :=
  { particle_indices := fun _ => 0, cell_starts := fun _ => -1, cell_counts := fun _ => 0,
    grid_width := 2, grid_height := 2, grid_depth := 2, cell_size := 50,
    total_cells := 8, num_particles := 4 }

/-- Four concrete particles: two near the origin corner, two in the far corner. -/
def particlesQW : ℕ → Particle ℚ :=
  fun i => if i = 0 then mkP 10 10 10 else if i = 1 then mkP 15 15 15 else mkP 90 90 90

/-- Witness for the amended C1 theorem: the in-range agent 1 is returned and
the far agent 2 is not. -/
theorem query_subset_correctness_witness :
    ((1 : ℕ) ∈ spatial_grid_query_neighbors
      (spatial_grid_update gridQW particlesQW 4) particlesQW (vec3_create 10 10 10) 10) ∧
    ¬ ((2 : ℕ) ∈ spatial_grid_query_neighbors
      (spatial_grid_update gridQW particlesQW 4) particlesQW (vec3_create 10 10 10) 10) := by
  have h := query_subset_correctness gridQW particlesQW 4 (vec3_create 10 10 10) 10
    (by decide) (by norm_num [gridQW]) (by norm_num) (by norm_num [gridQW])
    (by
      intro i hi
      interval_cases i <;>
        norm_num [cellOf, get_cell_index, get_grid_coords, cTrunc, gridQW,
          particlesQW, mkP])
    (by
      norm_num [List.filter, vec3_dist_sq_inline, particlesQW, mkP, vec3_create,
        MAX_NEIGHBORS])
  constructor
  · exact (h.2 1).mpr ⟨by norm_num,
      by norm_num [vec3_dist_sq_inline, particlesQW, mkP, vec3_create]⟩
  · intro hmem
    have h2 := ((h.2 2).mp hmem).2
    norm_num [vec3_dist_sq_inline, particlesQW, mkP, vec3_create] at h2

/-- Concrete grid for the C1 counterexample: a single 10-sized cell. -/
def gridC1 : SpatialGrid :=
  { particle_indices := fun _ => 0, cell_starts := fun _ => -1, cell_counts := fun _ => 0,
    grid_width := 1, grid_height := 1, grid_depth := 1, cell_size := 10,
    total_cells := 1, num_particles := 1 }

/-- One agent far outside the grid bounds. -/
def particlesC1 : ℕ → Particle ℚ := fun _ => mkP (-20) 0 0

/-- Claim C1 (counterexample): with `cell_size = 10 ≥ radius = 1` and one
agent at squared distance 0 from the query point (1 in-range agent, below the
cap), the query returns nothing, because the agent's position is outside grid
bounds and was dropped at build time — so the claim as stated, which does not
restrict agent positions, fails. -/
theorem query_misses_out_of_bounds_agent :
    vec3_dist_sq_inline (vec3_create (-20) 0 0) (particlesC1 0).position < 1 * 1 ∧
    ¬ ((0 : ℕ) ∈ spatial_grid_query_neighbors
      (spatial_grid_update gridC1 particlesC1 1) particlesC1 (vec3_create (-20) 0 0) 1) := by
  constructor
  · norm_num [vec3_dist_sq_inline, particlesC1, mkP, vec3_create]
  · norm_num [spatial_grid_query_neighbors, neighborOffsets, scanCell,
      get_cell_index, get_grid_coords, cTrunc, gridC1, particlesC1, mkP,
      vec3_create, spatial_grid_update, List.foldl]

theorem cTrunc_div_neg_small (cs x : ℚ) (hcs : 0 < cs) (h1 : -cs < x) (h2 : x < 0) :
    cTrunc (x / cs) = 0 := by
  have hq1 : -1 < x / cs := by
    rw [lt_div_iff hcs]
    linarith
  have hq2 : x / cs < 0 := div_neg_of_neg_of_pos h2 hcs
  unfold cTrunc
  rw [if_neg (not_le.mpr hq2)]
  have : ⌊-(x / cs)⌋ = 0 := by
    rw [Int.floor_eq_zero_iff]
    constructor
    · linarith
    · linarith
  rw [this, neg_zero]

theorem cTrunc_div_nonneg_iff (cs x : ℚ) (hcs : 0 < cs) :
    0 ≤ cTrunc (x / cs) ↔ -cs < x := by
  rw [cTrunc_nonneg_iff, lt_div_iff hcs]
  constructor <;> intro <;> linarith

theorem cTrunc_div_lt_iff (cs x : ℚ) (d : ℤ) (hcs : 0 < cs) (hd : 1 ≤ d) :
    cTrunc (x / cs) < d ↔ x < (d : ℚ) * cs := by
  rw [cTrunc_lt_iff _ _ hd, div_lt_iff hcs]

theorem get_cell_index_nonneg_of_valid (grid : SpatialGrid) (x y z : ℤ)
    (hx0 : 0 ≤ x) (hxw : x < grid.grid_width) (hy0 : 0 ≤ y) (hyh : y < grid.grid_height)
    (hz0 : 0 ≤ z) (hzd : z < grid.grid_depth) :
    0 ≤ get_cell_index grid x y z := by
  unfold get_cell_index
  rw [if_neg (by omega)]
  have h1 : 0 ≤ y * grid.grid_width := mul_nonneg hy0 (by omega)
  have h2 : 0 ≤ z * grid.grid_width * grid.grid_height := by
    apply mul_nonneg (mul_nonneg hz0 (by omega))
    omega
  omega

/-- Claim C10: the cell-coordinate cast truncates toward zero, so a position
component strictly between `-cell_size` and `0` gets cell coordinate `0`; a
particle with all components strictly between `-cell_size` and
`dim * cell_size` maps to an in-bounds cell and is inserted into that cell's
run by `spatial_grid_update`; a particle is excluded from the grid exactly
when some component is at or below `-cell_size` or at or beyond
`dim * cell_size`; and an inserted particle can be returned by a query (shown
for a single-particle grid queried at its own position with a positive radius
at most `cell_size`). -/
theorem truncation_boundary_cells (grid : SpatialGrid) (particles : ℕ → Particle ℚ)
    (count : ℕ) (i : ℕ) (radius : ℚ)
    (htot : grid.total_cells = grid.grid_width * grid.grid_height * grid.grid_depth)
    (hcs : 0 < grid.cell_size) (hw : 1 ≤ grid.grid_width) (hh : 1 ≤ grid.grid_height)
    (hd : 1 ≤ grid.grid_depth) :
    (-grid.cell_size < (particles i).position.x → (particles i).position.x < 0 →
      (get_grid_coords grid (particles i).position).1 = 0) ∧
    (i < count →
      (-grid.cell_size < (particles i).position.x ∧
        (particles i).position.x < (grid.grid_width : ℚ) * grid.cell_size) →
      (-grid.cell_size < (particles i).position.y ∧
        (particles i).position.y < (grid.grid_height : ℚ) * grid.cell_size) →
      (-grid.cell_size < (particles i).position.z ∧
        (particles i).position.z < (grid.grid_depth : ℚ) * grid.cell_size) →
      0 ≤ cellOf grid (particles i).position ∧
        i ∈ cellRun (spatial_grid_update grid particles count)
          (cellOf grid (particles i).position)) ∧
    (cellOf grid (particles i).position < 0 ↔
      ((particles i).position.x ≤ -grid.cell_size ∨
        (grid.grid_width : ℚ) * grid.cell_size ≤ (particles i).position.x ∨
        (particles i).position.y ≤ -grid.cell_size ∨
        (grid.grid_height : ℚ) * grid.cell_size ≤ (particles i).position.y ∨
        (particles i).position.z ≤ -grid.cell_size ∨
        (grid.grid_depth : ℚ) * grid.cell_size ≤ (particles i).position.z)) ∧
    (0 < radius → radius ≤ grid.cell_size →
      0 ≤ cellOf grid (particles 0).position →
      0 ∈ spatial_grid_query_neighbors (spatial_grid_update grid particles 1)
        particles (particles 0).position radius) := by
  have hvalid_iff : ∀ axis_pos : ℚ, ∀ dim : ℤ, 1 ≤ dim →
      ((0 ≤ cTrunc (axis_pos / grid.cell_size) ∧
        cTrunc (axis_pos / grid.cell_size) < dim) ↔
        (-grid.cell_size < axis_pos ∧ axis_pos < (dim : ℚ) * grid.cell_size)) := by
    intro ap dim hdim
    rw [cTrunc_div_nonneg_iff _ _ hcs, cTrunc_div_lt_iff _ _ _ hcs hdim]
  refine ⟨?_, ?_, ?_, ?_⟩
  · intro h1 h2
    rw [get_grid_coords_x]
    exact cTrunc_div_neg_small _ _ hcs h1 h2
  · intro hi hx hy hz
    have hib : 0 ≤ cellOf grid (particles i).position := by
      unfold cellOf
      rw [get_grid_coords_x, get_grid_coords_y, get_grid_coords_z]
      apply get_cell_index_nonneg_of_valid
      · exact ((hvalid_iff _ _ hw).mpr hx).1
      · exact ((hvalid_iff _ _ hw).mpr hx).2
      · exact ((hvalid_iff _ _ hh).mpr hy).1
      · exact ((hvalid_iff _ _ hh).mpr hy).2
      · exact ((hvalid_iff _ _ hd).mpr hz).1
      · exact ((hvalid_iff _ _ hd).mpr hz).2
    refine ⟨hib, ?_⟩
    rw [cellRun_update grid particles count htot _ hib]
    exact (mem_bucket grid particles count _ i).mpr ⟨hi, rfl⟩
  · unfold cellOf get_cell_index
    rw [get_grid_coords_x, get_grid_coords_y, get_grid_coords_z]
    constructor
    · intro hneg
      split_ifs at hneg with hguard
      · rcases hguard with h | h | h | h | h | h
        · exact Or.inl (by
            have := (not_iff_not.mpr (cTrunc_div_nonneg_iff grid.cell_size
              (particles i).position.x hcs)).mp (by omega)
            linarith [not_lt.mp this])
        · exact Or.inr (Or.inl (by
            have := (not_iff_not.mpr (cTrunc_div_lt_iff grid.cell_size
              (particles i).position.x grid.grid_width hcs hw)).mp (by omega)
            linarith [not_lt.mp this]))
        · exact Or.inr (Or.inr (Or.inl (by
            have := (not_iff_not.mpr (cTrunc_div_nonneg_iff grid.cell_size
              (particles i).position.y hcs)).mp (by omega)
            linarith [not_lt.mp this])))
        · exact Or.inr (Or.inr (Or.inr (Or.inl (by
            have := (not_iff_not.mpr (cTrunc_div_lt_iff grid.cell_size
              (particles i).position.y grid.grid_height hcs hh)).mp (by omega)
            linarith [not_lt.mp this]))))
        · exact Or.inr (Or.inr (Or.inr (Or.inr (Or.inl (by
            have := (not_iff_not.mpr (cTrunc_div_nonneg_iff grid.cell_size
              (particles i).position.z hcs)).mp (by omega)
            linarith [not_lt.mp this])))))
        · exact Or.inr (Or.inr (Or.inr (Or.inr (Or.inr (by
            have := (not_iff_not.mpr (cTrunc_div_lt_iff grid.cell_size
              (particles i).position.z grid.grid_depth hcs hd)).mp (by omega)
            linarith [not_lt.mp this])))))
      · exfalso
        push_neg at hguard
        obtain ⟨h1, h2, h3, h4, h5, h6⟩ := hguard
        have ha : 0 ≤ cTrunc ((particles i).position.y / grid.cell_size) *
            grid.grid_width := mul_nonneg h3 (by omega)
        have hb : 0 ≤ cTrunc ((particles i).position.z / grid.cell_size) *
            grid.grid_width * grid.grid_height := by
          apply mul_nonneg (mul_nonneg h5 (by omega))
          omega
        omega
    · intro hout
      split_ifs with hguard
      · omega
      · exfalso
        push_neg at hguard
        obtain ⟨h1, h2, h3, h4, h5, h6⟩ := hguard
        rcases hout with h | h | h | h | h | h
        · have := ((cTrunc_div_nonneg_iff grid.cell_size
            (particles i).position.x hcs).mp h1)
          linarith
        · have := ((cTrunc_div_lt_iff grid.cell_size
            (particles i).position.x grid.grid_width hcs hw).mp h2)
          linarith
        · have := ((cTrunc_div_nonneg_iff grid.cell_size
            (particles i).position.y hcs).mp h3)
          linarith
        · have := ((cTrunc_div_lt_iff grid.cell_size
            (particles i).position.y grid.grid_height hcs hh).mp h4)
          linarith
        · have := ((cTrunc_div_nonneg_iff grid.cell_size
            (particles i).position.z hcs).mp h5)
          linarith
        · have := ((cTrunc_div_lt_iff grid.cell_size
            (particles i).position.z grid.grid_depth hcs hd).mp h6)
          linarith
  · intro hr hrcs hib0
    have h := query_update_exact grid particles 1 (particles 0).position radius htot
      hcs (le_of_lt hr) hrcs
      (by
        intro j hj
        have : j = 0 := by omega
        subst this
        exact hib0)
      (le_trans (List.length_filter_le _ _) (by norm_num [MAX_NEIGHBORS]))
    apply (h.2 0).mpr
    refine ⟨by omega, ?_⟩
    unfold vec3_dist_sq_inline
    simp only [sub_self, mul_zero, zero_mul, add_zero, zero_add]
    positivity

/-- Concrete grid for the C10 witness: a single 10-sized cell. -/
def gridC10 : SpatialGrid :=
  { particle_indices := fun _ => 0, cell_starts := fun _ => -1, cell_counts := fun _ => 0,
    grid_width := 1, grid_height := 1, grid_depth := 1, cell_size := 10,
    total_cells := 1, num_particles := 1 }

/-- One agent with a slightly negative x component. -/
def particlesC10 : ℕ → Particle ℚ := fun _ => mkP (-1 / 2) 5 5

/-- Witness for the C10 theorem: the slightly negative component gets cell
coordinate 0, and the agent is returned by a query at its own position. -/
theorem truncation_boundary_cells_witness :
    (get_grid_coords gridC10 (particlesC10 0).position).1 = 0 ∧
    0 ∈ spatial_grid_query_neighbors (spatial_grid_update gridC10 particlesC10 1)
      particlesC10 (particlesC10 0).position 5 := by
  have h := truncation_boundary_cells gridC10 particlesC10 1 0 5 (by decide)
    (by norm_num [gridC10]) (by decide) (by decide) (by decide)
  have hx : -gridC10.cell_size < (particlesC10 0).position.x ∧
      (particlesC10 0).position.x < (gridC10.grid_width : ℚ) * gridC10.cell_size := by
    norm_num [gridC10, particlesC10, mkP]
  have hy : -gridC10.cell_size < (particlesC10 0).position.y ∧
      (particlesC10 0).position.y < (gridC10.grid_height : ℚ) * gridC10.cell_size := by
    norm_num [gridC10, particlesC10, mkP]
  have hz : -gridC10.cell_size < (particlesC10 0).position.z ∧
      (particlesC10 0).position.z < (gridC10.grid_depth : ℚ) * gridC10.cell_size := by
    norm_num [gridC10, particlesC10, mkP]
  constructor
  · exact h.1 (by norm_num [gridC10, particlesC10, mkP])
      (by norm_num [particlesC10, mkP])
  · exact h.2.2.2 (by norm_num) (by norm_num [gridC10])
      (h.2.1 (by norm_num) hx hy hz).1
